import Mathlib

/-!
Verification of the xo template-function library (`internal/funcs.go`,
`internal/types.go`): a shallow embedding of the schema data model, the SQL
clause builders, the identifier resolver (`shortname`), and the protobuf
bridge (`proto`, `modelToPB`, `PBToModel`), together with theorems about
placeholder numbering, ignore filtering, the soft-delete predicate,
short-name resolution, protobuf field numbering, warning emission, and
determinism of generation.

Go maps keyed by strings are modelled as association lists (`lookupMap`) or
as membership lists; the mutable short-name cache is modelled by explicit
state passing; `log.Printf` warnings are modelled as an explicit list of
warning records returned next to the generated text; `panic` is modelled by
an `Option` result.
-/

set_option maxHeartbeats 1000000

namespace Xo

/-- Embeds `models.Column` (only the members read by the template funcs:
the raw column name and the nullability flag). -/
structure Column where
  ColumnName : String
  NotNull : Bool
deriving DecidableEq

/-- Embeds `internal.Field`. `Typ` stands for the Go member `Type`, which
Lean reserves; `NilType` and `Len` are never read by the functions under
verification and are omitted. -/
structure Field where
  Name : String
  Typ : String
  Col : Column
  Comment : String
deriving DecidableEq

/-- Embeds `internal.QueryParam` (a parameter of a custom query). -/
structure QueryParam where
  Name : String
  Typ : String
  Interpolate : Bool
deriving DecidableEq

/-- Embeds `internal.Type` (table/view projection); named `XoType` because
Lean reserves `Type`. Only the members the claims touch are embedded. -/
structure XoType where
  Name : String
  Fields : List Field
  HasDeletedField : Bool
deriving DecidableEq

/-- Embeds `internal.ModelToPBConfig`. `SkipFields` is a Go
`map[string]struct{}` used only for membership, modelled as a list of
column names. -/
structure ModelToPBConfig where
  ImportService : String
  SkipFields : List String
deriving DecidableEq

/-- Embeds `internal.MethodsOption`. `Typ` stands for the Go member `Type`. -/
structure MethodsOption where
  Typ : XoType
  Sub : String
  ModelToPB : Bool
  ModelToPBConfig : ModelToPBConfig
deriving DecidableEq

/-- Embeds `internal.ProtoConfig` (`[]*MethodsOption`). -/
def ProtoConfig := List MethodsOption

/-- The escape-kind constants of `internal/types.go` (`SchemaEsc`,
`TableEsc`, `ColumnEsc`, an iota enumeration). -/
def SchemaEsc : Nat := 0

/-- `TableEsc` escape kind. -/
def TableEsc : Nat := 1

/-- `ColumnEsc` escape kind. -/
def ColumnEsc : Nat := 2

/-- The two `Loader` methods called by the functions under verification:
`Escape(typ, s)` and `NthParam(i)` (the dialect-specific positional
placeholder, e.g. `$1` or `?`). -/
structure Loader where
  Escape : Nat → String → String
  NthParam : Nat → String

/-- Embeds the members of `internal.ArgType` consulted by the template
functions the claims are about, plus the loader. Go maps become
association lists (`lookupMap`) or membership lists of keys. -/
structure ArgType where
  ShortNameTypeMap : List (String × String)
  NameConflictSuffix : String
  GeoInfoTypeMap : List String
  EscapeColumnNames : Bool
  Loader : Loader
  ToPBTypeMap : List (String × String)
  IncompatilbePBType : List String
  WrapperTypeMap : List (String × String)
  ImportMap : List (String × String)
  ServerProtoPathPrefix : String

/-- Lookup in a Go `map[string]string` modelled as an association list. -/
def lookupMap (m : List (String × String)) (k : String) : Option String :=
  (m.find? (fun p => p.1 == k)).map (fun p => p.2)

/-- Embeds Go `strings.Join(elems, sep)`. -/
def stringsJoin : List String → String → String
  | [], _ => ""
  | [x], _ => x
  | x :: y :: xs, sep => x ++ sep ++ stringsJoin (y :: xs) sep

/-- Specification helper: the tail of a separator-joined list, i.e. the
concatenation of `sep ++ item` over the items. -/
def joinRest (sep : String) : List String → String
  | [] => ""
  | x :: xs => sep ++ x ++ joinRest sep xs

/-- Specification helper: the fields that survive a name-based ignore set
(the `ignore[f.Name]` filter shared by all §4.2 clause builders). -/
def keptBy (ignoreNames : List String) (fields : List Field) : List Field :=
  fields.filter (fun f => !ignoreNames.contains f.Name)

/-- Specification helper: the fields that survive a field-based ignore set
(the `multi` variants build the ignore map from `ignoreNames[i].Name`). -/
def keptByFields (ignoreNames : List Field) (fields : List Field) : List Field :=
  fields.filter (fun f => !ignoreNames.any (fun g => g.Name == f.Name))

/-- Embeds `ArgType.colname`: the column name, escaped when
`EscapeColumnNames` is toggled. -/
def colname (a : ArgType) (col : Column) : String :=
  if a.EscapeColumnNames then a.Loader.Escape ColumnEsc col.ColumnName
  else col.ColumnName

/-! ## SQL clause builders (§4.2): loops and top-level functions -/

/-- The loop of `ArgType.colnames`, threading the accumulated string and
the count `i` of emitted fields. -/
def colnamesLoop (a : ArgType) (ignore : List String) :
    List Field → String → Nat → String
  | [], str, _ => str
  | f :: rest, str, i =>
    if ignore.contains f.Name then
      colnamesLoop a ignore rest str i
    else
      colnamesLoop a ignore rest
        ((if i ≠ 0 then str ++ ", " else str) ++ colname a f.Col) (i + 1)

/-- Embeds `ArgType.colnames`. -/
def colnames (a : ArgType) (fields : List Field) (ignoreNames : List String) : String :=
  colnamesLoop a ignoreNames fields "" 0

/-- The per-field text of `colnamesgeo`: geometry-typed columns are wrapped
in `ST_AsBinary`. -/
def geoColRender (a : ArgType) (f : Field) : String :=
  if a.GeoInfoTypeMap.contains f.Typ then
    "ST_AsBinary(" ++ colname a f.Col ++ ")"
  else colname a f.Col

/-- The loop of `ArgType.colnamesgeo`. -/
def colnamesgeoLoop (a : ArgType) (ignore : List String) :
    List Field → String → Nat → String
  | [], str, _ => str
  | f :: rest, str, i =>
    if ignore.contains f.Name then
      colnamesgeoLoop a ignore rest str i
    else
      colnamesgeoLoop a ignore rest
        ((if i ≠ 0 then str ++ ", " else str) ++ geoColRender a f) (i + 1)

/-- Embeds `ArgType.colnamesgeo`. -/
def colnamesgeo (a : ArgType) (fields : List Field) (ignoreNames : List String) : String :=
  colnamesgeoLoop a ignoreNames fields "" 0

/-- The loop of `ArgType.colnamesmulti` (ignore set built from field names). -/
def colnamesmultiLoop (a : ArgType) (ignore : List Field) :
    List Field → String → Nat → String
  | [], str, _ => str
  | f :: rest, str, i =>
    if ignore.any (fun g => g.Name == f.Name) then
      colnamesmultiLoop a ignore rest str i
    else
      colnamesmultiLoop a ignore rest
        ((if i ≠ 0 then str ++ ", " else str) ++ colname a f.Col) (i + 1)

/-- Embeds `ArgType.colnamesmulti`. -/
def colnamesmulti (a : ArgType) (fields : List Field) (ignoreNames : List Field) : String :=
  colnamesmultiLoop a ignoreNames fields "" 0

/-- The loop of `ArgType.colnamesgeomulti`. -/
def colnamesgeomultiLoop (a : ArgType) (ignore : List Field) :
    List Field → String → Nat → String
  | [], str, _ => str
  | f :: rest, str, i =>
    if ignore.any (fun g => g.Name == f.Name) then
      colnamesgeomultiLoop a ignore rest str i
    else
      colnamesgeomultiLoop a ignore rest
        ((if i ≠ 0 then str ++ ", " else str) ++ geoColRender a f) (i + 1)

/-- Embeds `ArgType.colnamesgeomulti`. -/
def colnamesgeomulti (a : ArgType) (fields : List Field) (ignoreNames : List Field) : String :=
  colnamesgeomultiLoop a ignoreNames fields "" 0

/-- The per-field clause of `colnamesquery`/`colnamesquerymulti`:
`col = placeholder`, with geometry-typed columns taking the fixed spatial
call `ST_GeomFromWKB(?)` instead of the numbered placeholder. -/
def queryClauseRender (a : ArgType) (f : Field) (i : Nat) : String :=
  if a.GeoInfoTypeMap.contains f.Typ then
    colname a f.Col ++ " = " ++ "ST_GeomFromWKB(?)"
  else colname a f.Col ++ " = " ++ a.Loader.NthParam i

/-- The loop of `ArgType.colnamesquery`, threading the string, the count
`i`, and the `skipDeleted` flag (set when a kept field is named
`is_deleted`). -/
def colnamesqueryLoop (a : ArgType) (ignore : List String) (sep : String) :
    List Field → String → Nat → Bool → String × Bool
  | [], str, _, sd => (str, sd)
  | f :: rest, str, i, sd =>
    if ignore.contains f.Name then
      colnamesqueryLoop a ignore sep rest str i sd
    else
      colnamesqueryLoop a ignore sep rest
        ((if i ≠ 0 then str ++ sep else str) ++ queryClauseRender a f i)
        (i + 1)
        (if f.Name == "is_deleted" then true else sd)

/-- Embeds `ArgType.colnamesquery`. -/
def colnamesquery (a : ArgType) (fields : List Field) (hasDeletedField : Bool)
    (sep : String) (ignoreNames : List String) : String :=
  let r := colnamesqueryLoop a ignoreNames sep fields "" 0 false
  if hasDeletedField && !r.2 then r.1 ++ sep ++ "is_deleted = false" else r.1

/-- The loop of `ArgType.colnamesquerymulti`: the count starts at
`startCount` and a separator is emitted when `i > startCount`. -/
def colnamesquerymultiLoop (a : ArgType) (ignore : List Field) (sep : String)
    (startCount : Nat) : List Field → String → Nat → Bool → String × Bool
  | [], str, _, sd => (str, sd)
  | f :: rest, str, i, sd =>
    if ignore.any (fun g => g.Name == f.Name) then
      colnamesquerymultiLoop a ignore sep startCount rest str i sd
    else
      colnamesquerymultiLoop a ignore sep startCount rest
        ((if i > startCount then str ++ sep else str) ++ queryClauseRender a f i)
        (i + 1)
        (if f.Name == "is_deleted" then true else sd)

/-- Embeds `ArgType.colnamesquerymulti`. -/
def colnamesquerymulti (a : ArgType) (fields : List Field) (hasDeletedField : Bool)
    (sep : String) (startCount : Nat) (ignoreNames : List Field) : String :=
  let r := colnamesquerymultiLoop a ignoreNames sep startCount fields "" startCount false
  if hasDeletedField && !r.2 then r.1 ++ sep ++ "is_deleted = false" else r.1

/-- The loop of `ArgType.colprefixnames`. -/
def colprefixnamesLoop (a : ArgType) (ignore : List String) (pfx : String) :
    List Field → String → Nat → String
  | [], str, _ => str
  | f :: rest, str, i =>
    if ignore.contains f.Name then
      colprefixnamesLoop a ignore pfx rest str i
    else
      colprefixnamesLoop a ignore pfx rest
        ((if i ≠ 0 then str ++ ", " else str) ++ pfx ++ "." ++ colname a f.Col) (i + 1)

/-- Embeds `ArgType.colprefixnames` (the Go parameter `prefix` is called
`pfx` here). -/
def colprefixnames (a : ArgType) (fields : List Field) (pfx : String)
    (ignoreNames : List String) : String :=
  colprefixnamesLoop a ignoreNames pfx fields "" 0

/-- The per-field text of `colvals`/`colvalsmulti`: the numbered
placeholder, or the fixed spatial call for geometry-typed columns. -/
def colvalRender (a : ArgType) (f : Field) (i : Nat) : String :=
  if a.GeoInfoTypeMap.contains f.Typ then "ST_GeomFromWKB(?)"
  else a.Loader.NthParam i

/-- The loop of `ArgType.colvals`. -/
def colvalsLoop (a : ArgType) (ignore : List String) :
    List Field → String → Nat → String
  | [], str, _ => str
  | f :: rest, str, i =>
    if ignore.contains f.Name then
      colvalsLoop a ignore rest str i
    else
      colvalsLoop a ignore rest
        ((if i ≠ 0 then str ++ ", " else str) ++ colvalRender a f i) (i + 1)

/-- Embeds `ArgType.colvals`. -/
def colvals (a : ArgType) (fields : List Field) (ignoreNames : List String) : String :=
  colvalsLoop a ignoreNames fields "" 0

/-- The loop of `ArgType.colvalsmulti`. -/
def colvalsmultiLoop (a : ArgType) (ignore : List Field) :
    List Field → String → Nat → String
  | [], str, _ => str
  | f :: rest, str, i =>
    if ignore.any (fun g => g.Name == f.Name) then
      colvalsmultiLoop a ignore rest str i
    else
      colvalsmultiLoop a ignore rest
        ((if i ≠ 0 then str ++ ", " else str) ++ colvalRender a f i) (i + 1)

/-- Embeds `ArgType.colvalsmulti` (note: its count starts at 0; unlike
`colnamesquerymulti` it takes no `startCount`). -/
def colvalsmulti (a : ArgType) (fields : List Field) (ignoreNames : List Field) : String :=
  colvalsmultiLoop a ignoreNames fields "" 0

/-- The loop of `ArgType.fieldnames`. -/
def fieldnamesLoop (ignore : List String) (pfx : String) :
    List Field → String → Nat → String
  | [], str, _ => str
  | f :: rest, str, i =>
    if ignore.contains f.Name then
      fieldnamesLoop ignore pfx rest str i
    else
      fieldnamesLoop ignore pfx rest
        ((if i ≠ 0 then str ++ ", " else str) ++ pfx ++ "." ++ f.Name) (i + 1)

/-- Embeds `ArgType.fieldnames` (the Go parameter `prefix` is called `pfx`). -/
def fieldnames (fields : List Field) (pfx : String) (ignoreNames : List String) : String :=
  fieldnamesLoop ignoreNames pfx fields "" 0

/-- The loop of `ArgType.fieldnamesmulti`. -/
def fieldnamesmultiLoop (ignore : List Field) (pfx : String) :
    List Field → String → Nat → String
  | [], str, _ => str
  | f :: rest, str, i =>
    if ignore.any (fun g => g.Name == f.Name) then
      fieldnamesmultiLoop ignore pfx rest str i
    else
      fieldnamesmultiLoop ignore pfx rest
        ((if i ≠ 0 then str ++ ", " else str) ++ pfx ++ "." ++ f.Name) (i + 1)

/-- Embeds `ArgType.fieldnamesmulti`. -/
def fieldnamesmulti (fields : List Field) (pfx : String) (ignoreNames : List Field) : String :=
  fieldnamesmultiLoop ignoreNames pfx fields "" 0

/-- The loop of `ArgType.colcount`: `i` starts at 1 and is incremented once
per non-ignored field. -/
def colcountLoop (ignore : List String) : List Field → Nat → Nat
  | [], i => i
  | f :: rest, i =>
    if ignore.contains f.Name then colcountLoop ignore rest i
    else colcountLoop ignore rest (i + 1)

/-- Embeds `ArgType.colcount`. -/
def colcount (fields : List Field) (ignoreNames : List String) : Nat :=
  colcountLoop ignoreNames fields 1

/-! ## Helper lemmas for the clause-builder characterizations -/

theorem stringsJoin_eq_joinRest (x : String) (xs : List String) (sep : String) :
    stringsJoin (x :: xs) sep = x ++ joinRest sep xs := by
  induction xs generalizing x with
  | nil => simp [stringsJoin, joinRest]
  | cons y ys ih =>
    show x ++ sep ++ stringsJoin (y :: ys) sep = _
    rw [ih y]
    simp [joinRest, String.append_assoc]

/-- The emitted-so-far branch of a clause-builder loop: when at least one
field has already been emitted every further item is preceded by the
separator, otherwise the items are separator-joined. -/
def joinCont (emitted : Bool) (sep : String) (items : List String) : String :=
  if emitted then joinRest sep items else stringsJoin items sep

theorem joinCont_nil (emitted : Bool) (sep : String) :
    joinCont emitted sep [] = "" := by
  cases emitted <;> simp [joinCont, joinRest, stringsJoin]

theorem joinCont_false (sep : String) (x : String) (xs : List String) :
    joinCont false sep (x :: xs) = x ++ joinCont true sep xs := by
  simp [joinCont, stringsJoin_eq_joinRest]

theorem joinCont_true (sep : String) (x : String) (xs : List String) :
    joinCont true sep (x :: xs) = sep ++ x ++ joinCont true sep xs := by
  simp [joinCont, joinRest]

/-- Generic form of the §4.2 clause-builder loops: `keep` is the ignore
filter, `render` the per-field text (which may consult the position),
`base` the starting count (`0`, or `startCount` for the offset variant).
A separator is prepended once the count has moved past `base`. -/
def emitLoop (keep : Field → Bool) (render : Field → Nat → String)
    (sep : String) (base : Nat) : List Field → String → Nat → String
  | [], str, _ => str
  | f :: rest, str, i =>
    if keep f then
      emitLoop keep render sep base rest
        ((if base < i then str ++ sep else str) ++ render f i) (i + 1)
    else emitLoop keep render sep base rest str i

/-- Generic form of the two query loops, which additionally thread the
`skipDeleted` flag. -/
def emitLoopSD (keep : Field → Bool) (render : Field → Nat → String)
    (sep : String) (base : Nat) : List Field → String → Nat → Bool → String × Bool
  | [], str, _, sd => (str, sd)
  | f :: rest, str, i, sd =>
    if keep f then
      emitLoopSD keep render sep base rest
        ((if base < i then str ++ sep else str) ++ render f i) (i + 1)
        (if f.Name == "is_deleted" then true else sd)
    else emitLoopSD keep render sep base rest str i sd

theorem emitLoop_spec (keep : Field → Bool) (render : Field → Nat → String)
    (sep : String) (base : Nat) (fields : List Field) :
    ∀ (str : String) (i : Nat), base ≤ i →
      emitLoop keep render sep base fields str i =
        str ++ joinCont (decide (base < i)) sep
          (((fields.filter keep).enumFrom i).map (fun p => render p.2 p.1)) := by
  induction fields with
  | nil => intro str i _; simp [emitLoop, joinCont_nil]
  | cons f rest ih =>
    intro str i hbase
    cases hk : keep f with
    | false =>
      rw [show emitLoop keep render sep base (f :: rest) str i
          = emitLoop keep render sep base rest str i by
        simp [emitLoop, hk]]
      rw [ih str i hbase]
      simp [List.filter_cons, hk]
    | true =>
      rw [show emitLoop keep render sep base (f :: rest) str i
          = emitLoop keep render sep base rest
              ((if base < i then str ++ sep else str) ++ render f i) (i + 1) by
        simp [emitLoop, hk]]
      rw [ih _ (i + 1) (Nat.le_succ_of_le hbase)]
      rw [show List.filter keep (f :: rest) = f :: List.filter keep rest by
        simp [List.filter_cons, hk]]
      rw [List.enumFrom_cons, List.map_cons]
      rcases Nat.lt_or_ge base (i + 1) with hi | hi
      · rcases Nat.lt_or_ge base i with hib | hib
        · rw [if_pos hib, decide_eq_true hib, decide_eq_true hi, joinCont_true]
          simp [String.append_assoc]
        · have hieq : base = i := Nat.le_antisymm hbase hib
          subst hieq
          rw [if_neg (Nat.lt_irrefl base), decide_eq_false (Nat.lt_irrefl base),
            decide_eq_true hi, joinCont_false]
          simp [String.append_assoc]
      · exact absurd (Nat.lt_of_le_of_lt hbase (Nat.lt_succ_self i)) (Nat.not_lt.mpr hi)

theorem emitLoopSD_spec (keep : Field → Bool) (render : Field → Nat → String)
    (sep : String) (base : Nat) (fields : List Field) :
    ∀ (str : String) (i : Nat) (sd : Bool), base ≤ i →
      emitLoopSD keep render sep base fields str i sd =
        (str ++ joinCont (decide (base < i)) sep
            (((fields.filter keep).enumFrom i).map (fun p => render p.2 p.1)),
         sd || (fields.filter keep).any (fun f => f.Name == "is_deleted")) := by
  induction fields with
  | nil => intro str i sd _; simp [emitLoopSD, joinCont_nil]
  | cons f rest ih =>
    intro str i sd hbase
    cases hk : keep f with
    | false =>
      rw [show emitLoopSD keep render sep base (f :: rest) str i sd
          = emitLoopSD keep render sep base rest str i sd by
        simp [emitLoopSD, hk]]
      rw [ih str i sd hbase]
      simp [List.filter_cons, hk]
    | true =>
      rw [show emitLoopSD keep render sep base (f :: rest) str i sd
          = emitLoopSD keep render sep base rest
              ((if base < i then str ++ sep else str) ++ render f i) (i + 1)
              (if f.Name == "is_deleted" then true else sd) by
        simp [emitLoopSD, hk]]
      rw [ih _ (i + 1) _ (Nat.le_succ_of_le hbase)]
      rw [show List.filter keep (f :: rest) = f :: List.filter keep rest by
        simp [List.filter_cons, hk]]
      rw [List.enumFrom_cons, List.map_cons, List.any_cons]
      have hsd : ((if f.Name == "is_deleted" then true else sd)
            || (List.filter keep rest).any (fun f => f.Name == "is_deleted"))
          = (sd || ((f.Name == "is_deleted")
              || (List.filter keep rest).any (fun f => f.Name == "is_deleted"))) := by
        cases hd : (f.Name == "is_deleted") <;> cases sd <;> simp [hd]
      rcases Nat.lt_or_ge base (i + 1) with hi | hi
      · rcases Nat.lt_or_ge base i with hib | hib
        · rw [if_pos hib, decide_eq_true hib, decide_eq_true hi, joinCont_true, hsd]
          simp [String.append_assoc]
        · have hieq : base = i := Nat.le_antisymm hbase hib
          subst hieq
          rw [if_neg (Nat.lt_irrefl base), decide_eq_false (Nat.lt_irrefl base),
            decide_eq_true hi, joinCont_false, hsd]
          simp [String.append_assoc]
      · exact absurd (Nat.lt_of_le_of_lt hbase (Nat.lt_succ_self i)) (Nat.not_lt.mpr hi)

theorem map_snd_enumFrom {α β : Type} (g : α → β) (n : Nat) (l : List α) :
    (l.enumFrom n).map (fun p => g p.2) = l.map g := by
  induction l generalizing n with
  | nil => rfl
  | cons x xs ih => simp [List.enumFrom_cons, ih]

/-! ## Bridges: each concrete loop is an instance of the generic loop -/

theorem colnamesLoop_eq (a : ArgType) (ign : List String) (fields : List Field) :
    ∀ (str : String) (i : Nat),
      colnamesLoop a ign fields str i =
        emitLoop (fun f => !ign.contains f.Name) (fun f _ => colname a f.Col) ", " 0
          fields str i := by
  induction fields with
  | nil => intros; rfl
  | cons f rest ih =>
    intro str i
    simp [colnamesLoop, emitLoop, ih, Nat.pos_iff_ne_zero, String.append_assoc]

theorem colnamesgeoLoop_eq (a : ArgType) (ign : List String) (fields : List Field) :
    ∀ (str : String) (i : Nat),
      colnamesgeoLoop a ign fields str i =
        emitLoop (fun f => !ign.contains f.Name) (fun f _ => geoColRender a f) ", " 0
          fields str i := by
  induction fields with
  | nil => intros; rfl
  | cons f rest ih =>
    intro str i
    simp [colnamesgeoLoop, emitLoop, ih, Nat.pos_iff_ne_zero, String.append_assoc]

theorem colnamesmultiLoop_eq (a : ArgType) (ign : List Field) (fields : List Field) :
    ∀ (str : String) (i : Nat),
      colnamesmultiLoop a ign fields str i =
        emitLoop (fun f => !ign.any (fun g => g.Name == f.Name))
          (fun f _ => colname a f.Col) ", " 0 fields str i := by
  induction fields with
  | nil => intros; rfl
  | cons f rest ih =>
    intro str i
    cases hf : ign.any (fun g => g.Name == f.Name) with
    | true =>
      have h1 : ∃ x ∈ ign, x.Name = f.Name := by simpa using hf
      have h2 : ¬∀ x ∈ ign, ¬x.Name = f.Name := by
        obtain ⟨x, hx, he⟩ := h1
        exact fun hall => hall x hx he
      simp [colnamesmultiLoop, emitLoop, ih, h1, h2, Nat.pos_iff_ne_zero, String.append_assoc]
    | false =>
      have h1 : ¬∃ x ∈ ign, x.Name = f.Name := by simpa using hf
      have h2 : ∀ x ∈ ign, ¬x.Name = f.Name := by
        intro x hx he
        exact h1 ⟨x, hx, he⟩
      simp [colnamesmultiLoop, emitLoop, ih, h1, h2, Nat.pos_iff_ne_zero, String.append_assoc]
      rw [if_pos h2]

theorem colnamesgeomultiLoop_eq (a : ArgType) (ign : List Field) (fields : List Field) :
    ∀ (str : String) (i : Nat),
      colnamesgeomultiLoop a ign fields str i =
        emitLoop (fun f => !ign.any (fun g => g.Name == f.Name))
          (fun f _ => geoColRender a f) ", " 0 fields str i := by
  induction fields with
  | nil => intros; rfl
  | cons f rest ih =>
    intro str i
    cases hf : ign.any (fun g => g.Name == f.Name) with
    | true =>
      have h1 : ∃ x ∈ ign, x.Name = f.Name := by simpa using hf
      have h2 : ¬∀ x ∈ ign, ¬x.Name = f.Name := by
        obtain ⟨x, hx, he⟩ := h1
        exact fun hall => hall x hx he
      simp [colnamesgeomultiLoop, emitLoop, ih, h1, h2, Nat.pos_iff_ne_zero, String.append_assoc]
    | false =>
      have h1 : ¬∃ x ∈ ign, x.Name = f.Name := by simpa using hf
      have h2 : ∀ x ∈ ign, ¬x.Name = f.Name := by
        intro x hx he
        exact h1 ⟨x, hx, he⟩
      simp [colnamesgeomultiLoop, emitLoop, ih, h1, h2, Nat.pos_iff_ne_zero, String.append_assoc]
      rw [if_pos h2]

theorem colprefixnamesLoop_eq (a : ArgType) (ign : List String) (pfx : String)
    (fields : List Field) :
    ∀ (str : String) (i : Nat),
      colprefixnamesLoop a ign pfx fields str i =
        emitLoop (fun f => !ign.contains f.Name)
          (fun f _ => pfx ++ "." ++ colname a f.Col) ", " 0 fields str i := by
  induction fields with
  | nil => intros; rfl
  | cons f rest ih =>
    intro str i
    simp [colprefixnamesLoop, emitLoop, ih, Nat.pos_iff_ne_zero, String.append_assoc]

theorem colvalsLoop_eq (a : ArgType) (ign : List String) (fields : List Field) :
    ∀ (str : String) (i : Nat),
      colvalsLoop a ign fields str i =
        emitLoop (fun f => !ign.contains f.Name) (colvalRender a) ", " 0
          fields str i := by
  induction fields with
  | nil => intros; rfl
  | cons f rest ih =>
    intro str i
    simp [colvalsLoop, emitLoop, ih, Nat.pos_iff_ne_zero, String.append_assoc]

theorem colvalsmultiLoop_eq (a : ArgType) (ign : List Field) (fields : List Field) :
    ∀ (str : String) (i : Nat),
      colvalsmultiLoop a ign fields str i =
        emitLoop (fun f => !ign.any (fun g => g.Name == f.Name)) (colvalRender a) ", " 0
          fields str i := by
  induction fields with
  | nil => intros; rfl
  | cons f rest ih =>
    intro str i
    cases hf : ign.any (fun g => g.Name == f.Name) with
    | true =>
      have h1 : ∃ x ∈ ign, x.Name = f.Name := by simpa using hf
      have h2 : ¬∀ x ∈ ign, ¬x.Name = f.Name := by
        obtain ⟨x, hx, he⟩ := h1
        exact fun hall => hall x hx he
      simp [colvalsmultiLoop, emitLoop, ih, h1, h2, Nat.pos_iff_ne_zero, String.append_assoc]
    | false =>
      have h1 : ¬∃ x ∈ ign, x.Name = f.Name := by simpa using hf
      have h2 : ∀ x ∈ ign, ¬x.Name = f.Name := by
        intro x hx he
        exact h1 ⟨x, hx, he⟩
      simp [colvalsmultiLoop, emitLoop, ih, h1, h2, Nat.pos_iff_ne_zero, String.append_assoc]
      rw [if_pos h2]

theorem fieldnamesLoop_eq (ign : List String) (pfx : String) (fields : List Field) :
    ∀ (str : String) (i : Nat),
      fieldnamesLoop ign pfx fields str i =
        emitLoop (fun f => !ign.contains f.Name) (fun f _ => pfx ++ "." ++ f.Name) ", " 0
          fields str i := by
  induction fields with
  | nil => intros; rfl
  | cons f rest ih =>
    intro str i
    simp [fieldnamesLoop, emitLoop, ih, Nat.pos_iff_ne_zero, String.append_assoc]

theorem fieldnamesmultiLoop_eq (ign : List Field) (pfx : String) (fields : List Field) :
    ∀ (str : String) (i : Nat),
      fieldnamesmultiLoop ign pfx fields str i =
        emitLoop (fun f => !ign.any (fun g => g.Name == f.Name))
          (fun f _ => pfx ++ "." ++ f.Name) ", " 0 fields str i := by
  induction fields with
  | nil => intros; rfl
  | cons f rest ih =>
    intro str i
    cases hf : ign.any (fun g => g.Name == f.Name) with
    | true =>
      have h1 : ∃ x ∈ ign, x.Name = f.Name := by simpa using hf
      have h2 : ¬∀ x ∈ ign, ¬x.Name = f.Name := by
        obtain ⟨x, hx, he⟩ := h1
        exact fun hall => hall x hx he
      simp [fieldnamesmultiLoop, emitLoop, ih, h1, h2, Nat.pos_iff_ne_zero, String.append_assoc]
    | false =>
      have h1 : ¬∃ x ∈ ign, x.Name = f.Name := by simpa using hf
      have h2 : ∀ x ∈ ign, ¬x.Name = f.Name := by
        intro x hx he
        exact h1 ⟨x, hx, he⟩
      simp [fieldnamesmultiLoop, emitLoop, ih, h1, h2, Nat.pos_iff_ne_zero, String.append_assoc]
      rw [if_pos h2]

theorem colnamesqueryLoop_eq (a : ArgType) (ign : List String) (sep : String)
    (fields : List Field) :
    ∀ (str : String) (i : Nat) (sd : Bool),
      colnamesqueryLoop a ign sep fields str i sd =
        emitLoopSD (fun f => !ign.contains f.Name) (queryClauseRender a) sep 0
          fields str i sd := by
  induction fields with
  | nil => intros; rfl
  | cons f rest ih =>
    intro str i sd
    simp [colnamesqueryLoop, emitLoopSD, ih, Nat.pos_iff_ne_zero, String.append_assoc]

theorem colnamesquerymultiLoop_eq (a : ArgType) (ign : List Field) (sep : String)
    (startCount : Nat) (fields : List Field) :
    ∀ (str : String) (i : Nat) (sd : Bool),
      colnamesquerymultiLoop a ign sep startCount fields str i sd =
        emitLoopSD (fun f => !ign.any (fun g => g.Name == f.Name))
          (queryClauseRender a) sep startCount fields str i sd := by
  induction fields with
  | nil => intros; rfl
  | cons f rest ih =>
    intro str i sd
    cases hf : ign.any (fun g => g.Name == f.Name) with
    | true =>
      have h1 : ∃ x ∈ ign, x.Name = f.Name := by simpa using hf
      have h2 : ¬∀ x ∈ ign, ¬x.Name = f.Name := by
        obtain ⟨x, hx, he⟩ := h1
        exact fun hall => hall x hx he
      simp [colnamesquerymultiLoop, emitLoopSD, ih, h1, h2, Nat.pos_iff_ne_zero, String.append_assoc]
    | false =>
      have h1 : ¬∃ x ∈ ign, x.Name = f.Name := by simpa using hf
      have h2 : ∀ x ∈ ign, ¬x.Name = f.Name := by
        intro x hx he
        exact h1 ⟨x, hx, he⟩
      simp [colnamesquerymultiLoop, emitLoopSD, ih, h1, h2, Nat.pos_iff_ne_zero, String.append_assoc]
      rw [if_pos h2]

/-! ## Per-function characterizations -/

theorem colnames_spec (a : ArgType) (fields : List Field) (ign : List String) :
    colnames a fields ign =
      stringsJoin ((keptBy ign fields).map (fun f => colname a f.Col)) ", " := by
  rw [colnames, colnamesLoop_eq,
    emitLoop_spec _ _ _ _ _ _ 0 (Nat.le_refl 0)]
  simp [joinCont, keptBy]
  exact congrArg (fun l => stringsJoin l ", ") (map_snd_enumFrom (fun (f : Field) => colname a f.Col) 0 _)

theorem colnamesgeo_spec (a : ArgType) (fields : List Field) (ign : List String) :
    colnamesgeo a fields ign =
      stringsJoin ((keptBy ign fields).map (geoColRender a)) ", " := by
  rw [colnamesgeo, colnamesgeoLoop_eq,
    emitLoop_spec _ _ _ _ _ _ 0 (Nat.le_refl 0)]
  simp [joinCont, keptBy]
  exact congrArg (fun l => stringsJoin l ", ") (map_snd_enumFrom (geoColRender a) 0 _)

theorem colnamesmulti_spec (a : ArgType) (fields : List Field) (ign : List Field) :
    colnamesmulti a fields ign =
      stringsJoin ((keptByFields ign fields).map (fun f => colname a f.Col)) ", " := by
  rw [colnamesmulti, colnamesmultiLoop_eq,
    emitLoop_spec _ _ _ _ _ _ 0 (Nat.le_refl 0)]
  simp [joinCont, keptByFields]
  exact congrArg (fun l => stringsJoin l ", ") (map_snd_enumFrom (fun (f : Field) => colname a f.Col) 0 _)

theorem colnamesgeomulti_spec (a : ArgType) (fields : List Field) (ign : List Field) :
    colnamesgeomulti a fields ign =
      stringsJoin ((keptByFields ign fields).map (geoColRender a)) ", " := by
  rw [colnamesgeomulti, colnamesgeomultiLoop_eq,
    emitLoop_spec _ _ _ _ _ _ 0 (Nat.le_refl 0)]
  simp [joinCont, keptByFields]
  exact congrArg (fun l => stringsJoin l ", ") (map_snd_enumFrom (geoColRender a) 0 _)

theorem colprefixnames_spec (a : ArgType) (fields : List Field) (pfx : String)
    (ign : List String) :
    colprefixnames a fields pfx ign =
      stringsJoin ((keptBy ign fields).map (fun f => pfx ++ "." ++ colname a f.Col)) ", " := by
  rw [colprefixnames, colprefixnamesLoop_eq,
    emitLoop_spec _ _ _ _ _ _ 0 (Nat.le_refl 0)]
  simp [joinCont, keptBy]
  exact congrArg (fun l => stringsJoin l ", ") (map_snd_enumFrom (fun (f : Field) => pfx ++ "." ++ colname a f.Col) 0 _)

theorem colvals_spec (a : ArgType) (fields : List Field) (ign : List String) :
    colvals a fields ign =
      stringsJoin (((keptBy ign fields).enumFrom 0).map
        (fun p => colvalRender a p.2 p.1)) ", " := by
  rw [colvals, colvalsLoop_eq, emitLoop_spec _ _ _ _ _ _ 0 (Nat.le_refl 0)]
  simp [joinCont, keptBy]

theorem colvalsmulti_spec (a : ArgType) (fields : List Field) (ign : List Field) :
    colvalsmulti a fields ign =
      stringsJoin (((keptByFields ign fields).enumFrom 0).map
        (fun p => colvalRender a p.2 p.1)) ", " := by
  rw [colvalsmulti, colvalsmultiLoop_eq, emitLoop_spec _ _ _ _ _ _ 0 (Nat.le_refl 0)]
  simp [joinCont, keptByFields]

theorem fieldnames_spec (fields : List Field) (pfx : String) (ign : List String) :
    fieldnames fields pfx ign =
      stringsJoin ((keptBy ign fields).map (fun f => pfx ++ "." ++ f.Name)) ", " := by
  rw [fieldnames, fieldnamesLoop_eq, emitLoop_spec _ _ _ _ _ _ 0 (Nat.le_refl 0)]
  simp [joinCont, keptBy]
  exact congrArg (fun l => stringsJoin l ", ") (map_snd_enumFrom (fun (f : Field) => pfx ++ "." ++ f.Name) 0 _)

theorem fieldnamesmulti_spec (fields : List Field) (pfx : String) (ign : List Field) :
    fieldnamesmulti fields pfx ign =
      stringsJoin ((keptByFields ign fields).map (fun f => pfx ++ "." ++ f.Name)) ", " := by
  rw [fieldnamesmulti, fieldnamesmultiLoop_eq, emitLoop_spec _ _ _ _ _ _ 0 (Nat.le_refl 0)]
  simp [joinCont, keptByFields]
  exact congrArg (fun l => stringsJoin l ", ") (map_snd_enumFrom (fun (f : Field) => pfx ++ "." ++ f.Name) 0 _)

/-- The soft-delete suffix appended by `colnamesquery`/`colnamesquerymulti`
when `hasDeletedField` holds and no kept field is named `is_deleted`. -/
def deletedSuffix (hasDeletedField : Bool) (sep : String) (kept : List Field) : String :=
  if hasDeletedField && !(kept.any (fun f => f.Name == "is_deleted")) then
    sep ++ "is_deleted = false"
  else ""

theorem querySuffix_eq (hasDel : Bool) (sep : String) (kept : List Field) (s : String) :
    (if hasDel && !(kept.any (fun f => f.Name == "is_deleted")) then
        s ++ sep ++ "is_deleted = false"
      else s)
    = s ++ deletedSuffix hasDel sep kept := by
  cases h : hasDel && !(kept.any fun f => f.Name == "is_deleted") <;>
    simp [deletedSuffix, h, String.append_empty, String.append_assoc]

theorem colnamesquery_spec (a : ArgType) (fields : List Field) (hasDel : Bool)
    (sep : String) (ign : List String) :
    colnamesquery a fields hasDel sep ign =
      stringsJoin (((keptBy ign fields).enumFrom 0).map
          (fun p => queryClauseRender a p.2 p.1)) sep
        ++ deletedSuffix hasDel sep (keptBy ign fields) := by
  simp only [colnamesquery, colnamesqueryLoop_eq]
  rw [emitLoopSD_spec _ _ _ _ _ _ 0 _ (Nat.le_refl 0)]
  dsimp only
  rw [Bool.false_or, querySuffix_eq]
  simp [joinCont, keptBy]

theorem colnamesquerymulti_spec (a : ArgType) (fields : List Field) (hasDel : Bool)
    (sep : String) (startCount : Nat) (ign : List Field) :
    colnamesquerymulti a fields hasDel sep startCount ign =
      stringsJoin (((keptByFields ign fields).enumFrom startCount).map
          (fun p => queryClauseRender a p.2 p.1)) sep
        ++ deletedSuffix hasDel sep (keptByFields ign fields) := by
  simp only [colnamesquerymulti, colnamesquerymultiLoop_eq]
  rw [emitLoopSD_spec _ _ _ _ _ _ startCount _ (Nat.le_refl startCount)]
  dsimp only
  rw [Bool.false_or, querySuffix_eq]
  simp [joinCont, keptByFields]

theorem colcountLoop_eq (ign : List String) (fields : List Field) :
    ∀ (i : Nat), colcountLoop ign fields i = i + (keptBy ign fields).length := by
  induction fields with
  | nil => intro i; simp [colcountLoop, keptBy]
  | cons f rest ih =>
    intro i
    cases hf : ign.contains f.Name with
    | true =>
      have h1 : f.Name ∈ ign := by simpa using hf
      simp [colcountLoop, hf, ih, keptBy, List.filter_cons, h1]
    | false =>
      have h1 : f.Name ∉ ign := by simpa using hf
      simp [colcountLoop, hf, ih, keptBy, List.filter_cons, h1]
      omega

theorem colcount_spec (fields : List Field) (ign : List String) :
    colcount fields ign = 1 + (keptBy ign fields).length := by
  rw [colcount, colcountLoop_eq]

theorem kept_length_add_ignored_length (ign : List String) (fields : List Field) :
    (keptBy ign fields).length
      + (fields.filter (fun f => ign.contains f.Name)).length = fields.length := by
  induction fields with
  | nil => simp [keptBy]
  | cons f rest ih =>
    cases hf : ign.contains f.Name with
    | true =>
      have h1 : f.Name ∈ ign := by simpa using hf
      simp only [keptBy, List.filter_cons] at *
      simp [h1, hf] at *
      omega
    | false =>
      have h1 : f.Name ∉ ign := by simpa using hf
      simp only [keptBy, List.filter_cons] at *
      simp [h1, hf] at *
      omega

/-! ## Concrete sample values used by the witnesses -/

/-- A sample loader: identity escaping and `$n`-style placeholders. -/
def sampleLoader : Loader :=
  { Escape := fun _ s => "`" ++ s ++ "`",
    NthParam := fun i => "$" ++ toString (i + 1) }

/-- A sample configuration with an empty short-name cache, no registered
maps, and the geometry set containing `geopoint`. -/
def A0 : ArgType :=
  { ShortNameTypeMap := [],
    NameConflictSuffix := "Val",
    GeoInfoTypeMap := ["geopoint"],
    EscapeColumnNames := false,
    Loader := sampleLoader,
    ToPBTypeMap := [],
    IncompatilbePBType := [],
    WrapperTypeMap := [],
    ImportMap := [],
    ServerProtoPathPrefix := "github.com/sample" }

/-- Sample field `a`. -/
def F1 : Field := { Name := "a", Typ := "string", Col := { ColumnName := "a", NotNull := true }, Comment := "" }

/-- Sample field `b`. -/
def F2 : Field := { Name := "b", Typ := "string", Col := { ColumnName := "b", NotNull := true }, Comment := "" }

/-! ## Claim theorems for the SQL clause builders -/

/-- Claim C1: for every field list, ignore set and start count, the
placeholder-emitting functions (`colvals`, `colvalsmulti`, `colnamesquery`,
`colnamesquerymulti`) number placeholders strictly increasingly, starting
at 0 (at the supplied `startCount` for `colnamesquerymulti`), advancing the
position by exactly one per emitted (non-ignored) field: the output is the
separator-join over the kept fields paired with consecutive positions
(`enumFrom`), where a geometry-typed field emits the fixed spatial call
(`colvalRender`/`queryClauseRender`) but still consumes its position. -/
theorem claim_C1 :
    (∀ (a : ArgType) (fields : List Field) (ign : List String),
      colvals a fields ign =
        stringsJoin (((keptBy ign fields).enumFrom 0).map
          (fun p => colvalRender a p.2 p.1)) ", ")
  ∧ (∀ (a : ArgType) (fields : List Field) (ignF : List Field),
      colvalsmulti a fields ignF =
        stringsJoin (((keptByFields ignF fields).enumFrom 0).map
          (fun p => colvalRender a p.2 p.1)) ", ")
  ∧ (∀ (a : ArgType) (fields : List Field) (hasDel : Bool) (sep : String)
        (ign : List String),
      colnamesquery a fields hasDel sep ign =
        stringsJoin (((keptBy ign fields).enumFrom 0).map
            (fun p => queryClauseRender a p.2 p.1)) sep
          ++ deletedSuffix hasDel sep (keptBy ign fields))
  ∧ (∀ (a : ArgType) (fields : List Field) (hasDel : Bool) (sep : String)
        (startCount : Nat) (ignF : List Field),
      colnamesquerymulti a fields hasDel sep startCount ignF =
        stringsJoin (((keptByFields ignF fields).enumFrom startCount).map
            (fun p => queryClauseRender a p.2 p.1)) sep
          ++ deletedSuffix hasDel sep (keptByFields ignF fields)) :=
  ⟨colvals_spec, colvalsmulti_spec, colnamesquery_spec, colnamesquerymulti_spec⟩

/-- Claim C2: every §4.2 clause-builder function emits exactly the fields
whose `Name` is not in the ignore set (given as names or as field objects),
in the original relative order: each output is the comma- or
separator-join of the per-field renderings of `keptBy`/`keptByFields`
(the in-order filter of the input list). -/
theorem claim_C2 :
    (∀ (a : ArgType) (fields : List Field) (ign : List String),
      colnames a fields ign =
        stringsJoin ((keptBy ign fields).map (fun f => colname a f.Col)) ", ")
  ∧ (∀ (a : ArgType) (fields : List Field) (ign : List String),
      colnamesgeo a fields ign =
        stringsJoin ((keptBy ign fields).map (geoColRender a)) ", ")
  ∧ (∀ (a : ArgType) (fields : List Field) (ignF : List Field),
      colnamesmulti a fields ignF =
        stringsJoin ((keptByFields ignF fields).map (fun f => colname a f.Col)) ", ")
  ∧ (∀ (a : ArgType) (fields : List Field) (ignF : List Field),
      colnamesgeomulti a fields ignF =
        stringsJoin ((keptByFields ignF fields).map (geoColRender a)) ", ")
  ∧ (∀ (a : ArgType) (fields : List Field) (hasDel : Bool) (sep : String)
        (ign : List String),
      colnamesquery a fields hasDel sep ign =
        stringsJoin (((keptBy ign fields).enumFrom 0).map
            (fun p => queryClauseRender a p.2 p.1)) sep
          ++ deletedSuffix hasDel sep (keptBy ign fields))
  ∧ (∀ (a : ArgType) (fields : List Field) (hasDel : Bool) (sep : String)
        (startCount : Nat) (ignF : List Field),
      colnamesquerymulti a fields hasDel sep startCount ignF =
        stringsJoin (((keptByFields ignF fields).enumFrom startCount).map
            (fun p => queryClauseRender a p.2 p.1)) sep
          ++ deletedSuffix hasDel sep (keptByFields ignF fields))
  ∧ (∀ (a : ArgType) (fields : List Field) (pfx : String) (ign : List String),
      colprefixnames a fields pfx ign =
        stringsJoin ((keptBy ign fields).map
          (fun f => pfx ++ "." ++ colname a f.Col)) ", ")
  ∧ (∀ (a : ArgType) (fields : List Field) (ign : List String),
      colvals a fields ign =
        stringsJoin (((keptBy ign fields).enumFrom 0).map
          (fun p => colvalRender a p.2 p.1)) ", ")
  ∧ (∀ (a : ArgType) (fields : List Field) (ignF : List Field),
      colvalsmulti a fields ignF =
        stringsJoin (((keptByFields ignF fields).enumFrom 0).map
          (fun p => colvalRender a p.2 p.1)) ", ")
  ∧ (∀ (fields : List Field) (pfx : String) (ign : List String),
      fieldnames fields pfx ign =
        stringsJoin ((keptBy ign fields).map (fun f => pfx ++ "." ++ f.Name)) ", ")
  ∧ (∀ (fields : List Field) (pfx : String) (ignF : List Field),
      fieldnamesmulti fields pfx ignF =
        stringsJoin ((keptByFields ignF fields).map (fun f => pfx ++ "." ++ f.Name)) ", ") :=
  ⟨colnames_spec, colnamesgeo_spec, colnamesmulti_spec, colnamesgeomulti_spec,
    colnamesquery_spec, colnamesquerymulti_spec, colprefixnames_spec,
    colvals_spec, colvalsmulti_spec, fieldnames_spec, fieldnamesmulti_spec⟩

/-- Claim C8: `colcount` returns `1 + (len(fields) - len(ignored))`, where
the ignored entries are the fields of the list whose name is in the ignore
set; equivalently, one more than the number of fields whose `Name` is not
in the ignore set. -/
theorem claim_C8 (fields : List Field) (ignoreNames : List String) :
    colcount fields ignoreNames
      = 1 + (fields.length
          - (fields.filter (fun f => ignoreNames.contains f.Name)).length)
  ∧ colcount fields ignoreNames = 1 + (keptBy ignoreNames fields).length := by
  have h := kept_length_add_ignored_length ignoreNames fields
  rw [colcount_spec]
  omega

/-- Claim C6: with two fields neither named `is_deleted`, an empty ignore
set and `hasDeletedField = true`, `colnamesquery` returns the two
`column = placeholder` clauses followed by exactly one soft-delete
predicate, appended after the last field clause and separated from it by
the supplied separator. -/
theorem claim_C6 (a : ArgType) (f1 f2 : Field) (sep : String)
    (h1 : f1.Name ≠ "is_deleted") (h2 : f2.Name ≠ "is_deleted") :
    colnamesquery a [f1, f2] true sep [] =
      queryClauseRender a f1 0 ++ sep ++ queryClauseRender a f2 1
        ++ sep ++ "is_deleted = false" := by
  rw [colnamesquery_spec]
  have hk : keptBy [] [f1, f2] = [f1, f2] := by simp [keptBy]
  rw [hk]
  simp [stringsJoin, deletedSuffix, List.enumFrom_cons, h1, h2, String.append_assoc]

/-- Witness for C6 at concrete inputs. -/
theorem claim_C6_witness :
    colnamesquery A0 [F1, F2] true " AND " [] =
      queryClauseRender A0 F1 0 ++ " AND " ++ queryClauseRender A0 F2 1
        ++ " AND " ++ "is_deleted = false" :=
  claim_C6 A0 F1 F2 " AND " (by decide) (by decide)

/-- Claim C10: when `hasDeletedField` is true and no field survives the
ignore filter, `colnamesquery` and `colnamesquerymulti` return exactly the
separator immediately followed by `is_deleted = false`. -/
theorem claim_C10 (a : ArgType) (fields : List Field) (sep : String)
    (ign : List String) (ignF : List Field) (startCount : Nat)
    (h1 : ∀ f ∈ fields, ign.contains f.Name)
    (h2 : ∀ f ∈ fields, ignF.any (fun g => g.Name == f.Name)) :
    colnamesquery a fields true sep ign = sep ++ "is_deleted = false"
  ∧ colnamesquerymulti a fields true sep startCount ignF
      = sep ++ "is_deleted = false" := by
  have hk1 : keptBy ign fields = [] := by
    rw [keptBy, List.filter_eq_nil_iff]
    intro f hf
    simpa using h1 f hf
  have hk2 : keptByFields ignF fields = [] := by
    rw [keptByFields, List.filter_eq_nil_iff]
    intro f hf
    simpa using h2 f hf
  constructor
  · rw [colnamesquery_spec, hk1]
    simp [stringsJoin, deletedSuffix]
  · rw [colnamesquerymulti_spec, hk2]
    simp [stringsJoin, deletedSuffix]

/-- Witness for C10 at concrete inputs: both fields ignored. -/
theorem claim_C10_witness :
    colnamesquery A0 [F1] true " AND " ["a"] = " AND " ++ "is_deleted = false"
  ∧ colnamesquerymulti A0 [F1] true " AND " 3 [F1] = " AND " ++ "is_deleted = false" :=
  claim_C10 A0 [F1] " AND " ["a"] [F1] 3
    (by intro f hf; fin_cases hf <;> decide)
    (by intro f hf; fin_cases hf <;> decide)

/-! ## Identifier resolver (`shortname`, §4.1) -/

/-- Models the external library function `snaker.CamelToSnake` on plain
ASCII camel-case input: an underscore is inserted before every interior
uppercase letter and all letters are lower-cased. (The snaker library
additionally groups initialisms such as `ID`; no claim below depends on
that, and every concrete name used below is initialism-free.) -/
def camelToSnakeAux : List Char → List Char
  | [] => []
  | c :: rest =>
    (if c.isUpper then ['_', c.toLower] else [c]) ++ camelToSnakeAux rest

/-- See `camelToSnakeAux`. -/
def camelToSnake (s : String) : String :=
  match s.data with
  | [] => ""
  | c :: rest => String.mk (c.toLower :: camelToSnakeAux rest)

/-- Embeds the `goReservedNames` map of `funcs.go`: Go reserved words and
predeclared type names mapped to safe aliases. -/
def goReservedNames : List (String × String) :=
  [("break", "brk"), ("case", "cs"), ("chan", "chn"), ("const", "cnst"),
   ("continue", "cnt"), ("default", "def"), ("defer", "dfr"), ("else", "els"),
   ("fallthrough", "flthrough"), ("for", "fr"), ("func", "fn"), ("go", "goVal"),
   ("goto", "gt"), ("if", "ifVal"), ("import", "imp"), ("interface", "iface"),
   ("map", "mp"), ("package", "pkg"), ("range", "rnge"), ("return", "ret"),
   ("select", "slct"), ("struct", "strct"), ("switch", "swtch"), ("type", "typ"),
   ("var", "vr"),
   ("error", "e"), ("bool", "b"), ("string", "str"), ("byte", "byt"),
   ("rune", "r"), ("uintptr", "uptr"), ("int", "i"), ("int8", "i8"),
   ("int16", "i16"), ("int32", "i32"), ("int64", "i64"), ("uint", "u"),
   ("uint8", "u8"), ("uint16", "u16"), ("uint32", "u32"), ("uint64", "u64"),
   ("float32", "z"), ("float64", "f"), ("complex64", "c"), ("complex128", "c128")]

/-- Embeds Go `strings.ToLower` (character-wise lower-casing). -/
def stringsToLower (s : String) : String :=
  String.mk (s.data.map Char.toLower)

/-- The word-splitting of Go `strings.Split(s, "_")`, on the character
list: every underscore separates words, empty words are preserved. -/
def splitUnderscoreAux : List Char → List (List Char)
  | [] => [[]]
  | c :: rest =>
    match splitUnderscoreAux rest with
    | [] => [[c]]
    | w :: ws => if c = '_' then [] :: w :: ws else (c :: w) :: ws

/-- Embeds Go `strings.Split(s, "_")`. -/
def splitUnderscore (s : String) : List String :=
  (splitUnderscoreAux s.data).map String.mk

/-- The short-name computation of `shortname` before any substitution:
split the lower-cased snake form of `typ` on underscores, drop empty words
and words equal to `id`, and join the first letter (`s[:1]`) of each
remaining word. -/
def computeShortname (typ : String) : String :=
  stringsJoin
    ((splitUnderscore (stringsToLower (camelToSnake typ))).foldl
      (fun u s => if s.length > 0 ∧ s ≠ "id" then u ++ [String.mk (s.data.take 1)] else u) [])
    ""

/-- The cache-and-compute part of `ArgType.shortname`: consult
`ShortNameTypeMap`, otherwise compute the short name, substitute a
`goReservedNames` alias if it is reserved, and store it back. The mutable
cache is threaded explicitly through the returned `ArgType`. -/
def shortnameCalc (a : ArgType) (typ : String) : String × ArgType :=
  match lookupMap a.ShortNameTypeMap typ with
  | some v => (v, a)
  | none =>
    let v := computeShortname typ
    let v :=
      match lookupMap goReservedNames v with
      | some n => n
      | none => v
    (v, { a with ShortNameTypeMap := (typ, v) :: a.ShortNameTypeMap })

/-- The fixed initial conflict set of `shortname` (the default imported
packages of `xo_package.go.tpl`). -/
def defaultConflicts : List String :=
  ["sql", "driver", "csv", "errors", "fmt", "regexp", "strings", "time"]

/-- The dynamic (`interface{}`) conflict-scope arguments of `shortname`:
the three recognized kinds, plus `unsupported` standing for every other
runtime type (the `default: panic("not implemented")` branch). -/
inductive ScopeConflict where
  | str : String → ScopeConflict
  | fields : List Field → ScopeConflict
  | queryParams : List QueryParam → ScopeConflict
  | unsupported : ScopeConflict
deriving DecidableEq

/-- The conflict-accumulating loop of `shortname`; `none` models the
`panic` on an unsupported scope kind. -/
def addScopeConflicts : List ScopeConflict → List String → Option (List String)
  | [], acc => some acc
  | ScopeConflict.str k :: rest, acc => addScopeConflicts rest (acc ++ [k])
  | ScopeConflict.fields fs :: rest, acc =>
    addScopeConflicts rest (acc ++ fs.map (fun f => f.Name))
  | ScopeConflict.queryParams ps :: rest, acc =>
    addScopeConflicts rest (acc ++ ps.map (fun f => f.Name))
  | ScopeConflict.unsupported :: _, _ => none

/-- Embeds `ArgType.shortname`: cache/compute the short name, abort
(`none`, the `panic`) on an unsupported conflict-scope kind, and append
`NameConflictSuffix` when the name is in the conflict set. -/
def shortname (a : ArgType) (typ : String) (scopeConflicts : List ScopeConflict) :
    Option (String × ArgType) :=
  let r := shortnameCalc a typ
  match addScopeConflicts scopeConflicts defaultConflicts with
  | none => none
  | some conflicts =>
    some ((if conflicts.contains r.1 then r.1 ++ a.NameConflictSuffix else r.1), r.2)

/-- `shortname` with no conflict-scope arguments (the way `modelToPB` and
`PBToModel` call it); never panics, so the `Option` is dropped. -/
def shortnameNoScope (a : ArgType) (typ : String) : String × ArgType :=
  let r := shortnameCalc a typ
  ((if defaultConflicts.contains r.1 then r.1 ++ a.NameConflictSuffix else r.1), r.2)

theorem shortname_nil_eq (a : ArgType) (typ : String) :
    shortname a typ [] = some (shortnameNoScope a typ) := rfl

theorem addScopeConflicts_eq_none (scopes : List ScopeConflict) :
    ∀ acc, ScopeConflict.unsupported ∈ scopes → addScopeConflicts scopes acc = none := by
  induction scopes with
  | nil => intro acc h; cases h
  | cons c rest ih =>
    intro acc h
    cases c with
    | unsupported => rfl
    | str k =>
      rcases List.mem_cons.mp h with h | h
      · exact absurd h.symm (by simp)
      · exact ih _ h
    | fields fs =>
      rcases List.mem_cons.mp h with h | h
      · exact absurd h.symm (by simp)
      · exact ih _ h
    | queryParams ps =>
      rcases List.mem_cons.mp h with h | h
      · exact absurd h.symm (by simp)
      · exact ih _ h

theorem addScopeConflicts_isSome (scopes : List ScopeConflict) :
    ∀ acc, (∀ c ∈ scopes, c ≠ ScopeConflict.unsupported) →
      (addScopeConflicts scopes acc).isSome = true := by
  induction scopes with
  | nil => intro acc _; rfl
  | cons c rest ih =>
    intro acc h
    cases c with
    | unsupported => exact absurd rfl (h _ (List.mem_cons_self _ _))
    | str k => exact ih _ (fun c hc => h c (List.mem_cons_of_mem _ hc))
    | fields fs => exact ih _ (fun c hc => h c (List.mem_cons_of_mem _ hc))
    | queryParams ps => exact ih _ (fun c hc => h c (List.mem_cons_of_mem _ hc))

/-- Claim C9: a `shortname` call whose conflict-scope arguments include a
value that is not a string, a field list or a query-parameter list is the
fatal `panic` branch (modelled `none`): it never returns an identifier.
Conversely, when every scope argument is of a supported kind the panic
branch is unreachable and an identifier is always returned. -/
theorem claim_C9 :
    (∀ (a : ArgType) (typ : String) (scopes : List ScopeConflict),
        ScopeConflict.unsupported ∈ scopes → shortname a typ scopes = none)
  ∧ (∀ (a : ArgType) (typ : String) (scopes : List ScopeConflict),
        (∀ c ∈ scopes, c ≠ ScopeConflict.unsupported) →
        (shortname a typ scopes).isSome = true) := by
  constructor
  · intro a typ scopes h
    simp only [shortname, addScopeConflicts_eq_none scopes defaultConflicts h]
  · intro a typ scopes h
    have h2 := addScopeConflicts_isSome scopes defaultConflicts h
    rcases Option.isSome_iff_exists.mp h2 with ⟨l, hl⟩
    simp only [shortname, hl, Option.isSome_some]

/-- Witness for C9: an unsupported scope argument aborts; a supported one
yields an identifier. -/
theorem claim_C9_witness :
    shortname A0 "OrderItem" [ScopeConflict.unsupported] = none
  ∧ (shortname A0 "OrderItem" [ScopeConflict.str "x"]).isSome = true :=
  ⟨claim_C9.1 A0 "OrderItem" [ScopeConflict.unsupported] (by decide),
   claim_C9.2 A0 "OrderItem" [ScopeConflict.str "x"] (by decide)⟩

/-! ## Claim C5: shortname resolution -/

theorem mp_append_ne_map (s : String) : "mp" ++ s ≠ "map" := by
  intro h
  have h2 := congrArg String.data h
  rw [String.data_append] at h2
  have h3 : 'm' :: 'p' :: s.data = ['m', 'a', 'p'] := h2
  have h4 := (List.cons.injEq _ _ _ _).mp ((List.cons.injEq _ _ _ _).mp h3).2
  exact absurd h4.1 (by decide)

/-- Counterexample to C5 as stated: the claim says a computed short name
equal to a Go reserved word is never returned as the reserved word itself,
but when the alias collides with the conflict scope the appended
`NameConflictSuffix` can spell the reserved word again. Here the type name
computes the short name `type` (a reserved word), the alias is `typ`, the
scope contains `typ`, and the configured suffix is `e`, so the call
returns exactly `type`. -/
theorem claim_C5_counterexample :
    computeShortname "TheYellowPinkElephant" = "type"
  ∧ lookupMap goReservedNames "type" = some "typ"
  ∧ (shortname { A0 with NameConflictSuffix := "e" } "TheYellowPinkElephant"
      [ScopeConflict.str "typ"]).map (fun p => p.1) = some "type" :=
  ⟨rfl, rfl, rfl⟩

/-- Claim C5 (amended): on a cache miss, `shortname` computes the
concatenation of the first letters of the non-`id` words: `OrderItem`
yields `oi`; a conflict scope containing a field named `oi` makes the
result `oi` followed by `NameConflictSuffix`; a computed short name that
is a Go reserved word is always replaced by its alias from
`goReservedNames` before the conflict check, so the returned identifier is
the alias or the alias followed by the suffix — in particular for `map`
(alias `mp`) the reserved word itself is never returned, though for other
reserved words an adversarial suffix may recreate the reserved spelling
(see the counterexample). -/
theorem claim_C5 :
    (∀ a : ArgType, lookupMap a.ShortNameTypeMap "OrderItem" = none →
      (shortname a "OrderItem" []).map (fun p => p.1) = some "oi")
  ∧ (∀ (a : ArgType) (fs : List Field),
      lookupMap a.ShortNameTypeMap "OrderItem" = none →
      (∃ g ∈ fs, g.Name = "oi") →
      (shortname a "OrderItem" [ScopeConflict.fields fs]).map (fun p => p.1)
        = some ("oi" ++ a.NameConflictSuffix))
  ∧ (∀ (a : ArgType) (typ : String) (scopes : List ScopeConflict) (als : String),
      lookupMap a.ShortNameTypeMap typ = none →
      lookupMap goReservedNames (computeShortname typ) = some als →
      shortname a typ scopes = none
      ∨ (shortname a typ scopes).map (fun p => p.1) = some als
      ∨ (shortname a typ scopes).map (fun p => p.1)
          = some (als ++ a.NameConflictSuffix))
  ∧ (∀ (a : ArgType) (typ : String) (scopes : List ScopeConflict) (r : String)
        (a' : ArgType),
      lookupMap a.ShortNameTypeMap typ = none →
      computeShortname typ = "map" →
      shortname a typ scopes = some (r, a') →
      r ≠ "map") := by
  refine ⟨?p1, ?p2, ?p3, ?p4⟩
  case p1 =>
    intro a h
    simp only [shortname, shortnameCalc, h]
    rfl
  case p2 =>
    intro a fs h hex
    have hcontains :
        (defaultConflicts ++ fs.map (fun f => f.Name)).contains "oi" = true := by
      rcases hex with ⟨g, hg, hname⟩
      exact List.elem_eq_true_of_mem
        (List.mem_append.mpr (Or.inr (List.mem_map.mpr ⟨g, hg, hname⟩)))
    simp only [shortname, shortnameCalc, h]
    have hcs : computeShortname "OrderItem" = "oi" := rfl
    rw [hcs]
    have hres : lookupMap goReservedNames "oi" = none := rfl
    rw [hres]
    have hadd : addScopeConflicts [ScopeConflict.fields fs] defaultConflicts
        = some (defaultConflicts ++ fs.map (fun f => f.Name)) := rfl
    simp only [hadd, hcontains, if_true]
    rfl
  case p3 =>
    intro a typ scopes als h hres
    simp only [shortname, shortnameCalc, h, hres]
    cases hadd : addScopeConflicts scopes defaultConflicts with
    | none => left; rfl
    | some l =>
      right
      cases hc : l.contains als with
      | false =>
        have hm : als ∉ l := by simpa using hc
        left
        simp [hadd, hc, hm]
      | true =>
        have hm : als ∈ l := by simpa using hc
        right
        simp [hadd, hc, hm]
  case p4 =>
    intro a typ scopes r a' h hmap hsome
    have hres : lookupMap goReservedNames "map" = some "mp" := rfl
    simp only [shortname, shortnameCalc, h, hmap, hres] at hsome
    cases hadd : addScopeConflicts scopes defaultConflicts with
    | none =>
      rw [hadd] at hsome
      dsimp only at hsome
      cases hsome
    | some l =>
      rw [hadd] at hsome
      dsimp only at hsome
      have hr : (if l.contains "mp" = true then "mp" ++ a.NameConflictSuffix
          else "mp") = r := congrArg Prod.fst (Option.some.inj hsome)
      rw [← hr]
      cases hc : l.contains "mp" with
      | false =>
        rw [if_neg (by decide)]
        decide
      | true =>
        rw [if_pos rfl]
        exact mp_append_ne_map a.NameConflictSuffix

/-- The cache state after resolving `MyAwesomeProject` from `A0`. -/
def A0mp : ArgType := { A0 with ShortNameTypeMap := [("MyAwesomeProject", "mp")] }

/-- Sample field named `oi`, colliding with the short name of `OrderItem`. -/
def FOi : Field :=
  { Name := "oi", Typ := "string", Col := { ColumnName := "oi", NotNull := true },
    Comment := "" }

/-- Witness for the amended C5 at concrete inputs: `OrderItem` yields `oi`
on the empty cache; with a field `oi` in scope it yields `oiVal`
(`A0.NameConflictSuffix = "Val"`); `MyAwesomeProject` computes the reserved
word `map` and resolves to `mp`, never `map`. -/
theorem claim_C5_witness :
    ((shortname A0 "OrderItem" []).map (fun p => p.1) = some "oi")
  ∧ ((shortname A0 "OrderItem" [ScopeConflict.fields [FOi]]).map (fun p => p.1)
      = some ("oi" ++ A0.NameConflictSuffix))
  ∧ (shortname A0 "MyAwesomeProject" [] = none
      ∨ (shortname A0 "MyAwesomeProject" []).map (fun p => p.1) = some "mp"
      ∨ (shortname A0 "MyAwesomeProject" []).map (fun p => p.1)
          = some ("mp" ++ A0.NameConflictSuffix))
  ∧ ("mp" : String) ≠ "map" :=
  ⟨claim_C5.1 A0 rfl,
   claim_C5.2.1 A0 [FOi] rfl ⟨FOi, by decide, rfl⟩,
   claim_C5.2.2.1 A0 "MyAwesomeProject" [] "mp" rfl rfl,
   claim_C5.2.2.2 A0 "MyAwesomeProject" [] "mp" A0mp rfl rfl rfl⟩

/-! ## Protobuf bridge (§4.4): string utilities -/

/-- Embeds `SnakeToCamelWithoutInitialisms` (`funcs.go`): every non-empty
underscore-separated word contributes its first letter upper-cased and the
remainder lower-cased. -/
def SnakeToCamelWithoutInitialisms (str : String) : String :=
  (splitUnderscore str).foldl
    (fun r w =>
      if w = "" then r
      else r ++ String.mk ((w.data.take 1).map Char.toUpper)
        ++ String.mk ((w.data.drop 1).map Char.toLower))
    ""

/-- Models the external `snaker.ForceLowerCamelIdentifier` on plain ASCII
snake-case input: the first word is lower-cased and each later word is
capitalized. (The library's initialism and identifier-sanitizing handling
is not modelled; no claim depends on it.) -/
def forceLowerCamelIdentifier (s : String) : String :=
  match (splitUnderscore s).filter (fun w => w ≠ "") with
  | [] => ""
  | w :: ws =>
    String.mk (w.data.map Char.toLower)
      ++ stringsJoin
        (ws.map (fun v => String.mk ((v.data.take 1).map Char.toUpper)
          ++ String.mk ((v.data.drop 1).map Char.toLower))) ""

/-- Embeds `goPackageName` (`funcs.go`): removes every `-` and `_`
(`strings.ReplaceAll` twice with the empty replacement). -/
def goPackageName (name : String) : String :=
  String.mk (name.data.filter (fun c => c ≠ '-' ∧ c ≠ '_'))

/-- Embeds `ProtoName` (`funcs.go`): replaces every `-` with `_`. -/
def ProtoName (name : String) : String :=
  String.mk (name.data.map (fun c => if c = '-' then '_' else c))

/-- Embeds Go `strings.Trim(s, cutset)`: removes leading and trailing
characters that occur in `cutset`. -/
def stringsTrim (s : String) (cutset : String) : String :=
  String.mk
    (((s.data.dropWhile (fun c => cutset.data.contains c)).reverse.dropWhile
      (fun c => cutset.data.contains c)).reverse)

/-- Embeds Go `strings.TrimSuffix(s, sfx)`. -/
def stringsTrimSuffix (s : String) (sfx : String) : String :=
  if sfx.data.isSuffixOf s.data then
    String.mk (s.data.take (s.data.length - sfx.data.length))
  else s

/-- The warning record written by
`log.Printf("WARN: %s.%s could be null, skipping!", type, field)` in
`modelToPB` and `PBToModel`. -/
def warnMsg (typeName fieldName : String) : String :=
  "WARN: " ++ typeName ++ "." ++ fieldName ++ " could be null, skipping!"

/-! ## `modelToPB` -/

/-- The first loop of `modelToPB`: skipped fields and nullable non-`[]byte`
fields are passed over; `time.Time` fields append a fallible timestamp
conversion to the body; every processed field contributes one
struct-literal assignment. -/
def modelToPBStep1 (toPB : List (String × String)) (incompat : List String)
    (skips : List String) (shortName : String) (field : Field)
    (body : String) (fas : List String) : String × List String :=
  if skips.contains field.Col.ColumnName then (body, fas)
  else if !field.Col.NotNull && field.Typ != "[]byte" then (body, fas)
  else if field.Typ == "time.Time" then
    let f := forceLowerCamelIdentifier field.Col.ColumnName
    let body := body ++ f ++ ", err := ptypes.TimestampProto(" ++ shortName
      ++ "." ++ field.Name ++ ")\n\tif err != nil \x7b\n\t\treturn nil, err\n\t\x7d\n"
    let fa := SnakeToCamelWithoutInitialisms field.Col.ColumnName ++ ":" ++ f ++ ","
    (body, fas ++ [fa])
  else
    let fa :=
      match lookupMap toPB field.Typ with
      | some t =>
        if incompat.contains t then
          SnakeToCamelWithoutInitialisms field.Col.ColumnName ++ ":" ++ shortName
            ++ "." ++ field.Name ++ ","
        else
          SnakeToCamelWithoutInitialisms field.Col.ColumnName ++ ":" ++ t ++ "("
            ++ shortName ++ "." ++ field.Name ++ "),"
      | none =>
        SnakeToCamelWithoutInitialisms field.Col.ColumnName ++ ":" ++ shortName
          ++ "." ++ field.Name ++ ","
    (body, fas ++ [fa])

/-- The first loop of `modelToPB`, iterating `modelToPBStep1`. -/
def modelToPBLoop1 (toPB : List (String × String)) (incompat : List String)
    (skips : List String) (shortName : String) :
    List Field → String → List String → String × List String
  | [], body, fas => (body, fas)
  | field :: rest, body, fas =>
    modelToPBLoop1 toPB incompat skips shortName rest
      (modelToPBStep1 toPB incompat skips shortName field body fas).1
      (modelToPBStep1 toPB incompat skips shortName field body fas).2

/-- The second loop of `modelToPB`, over the nullable non-`[]byte`
non-skipped fields: `mysql.NullTime` and registered wrapper types append a
guarded conversion to the body; an unregistered nullable type appends
nothing and records one warning. -/
def modelToPBStep2 (wrapper : List (String × String)) (skips : List String)
    (typeName shortName : String) (field : Field)
    (body : String) (warns : List String) : String × List String :=
  if field.Col.NotNull || field.Typ == "[]byte" then (body, warns)
  else if skips.contains field.Col.ColumnName then (body, warns)
  else
    let s := SnakeToCamelWithoutInitialisms field.Col.ColumnName
    if field.Typ == "mysql.NullTime" then
      let f := forceLowerCamelIdentifier field.Col.ColumnName
      let fa := "if " ++ shortName ++ "." ++ field.Name ++ ".Valid \x7b\n\t" ++ f
        ++ ", err := ptypes.TimestampProto(" ++ shortName ++ "." ++ field.Name
        ++ ".Time)\n\tif err != nil \x7b\n\t\treturn nil, err\n\t\x7d\n\tproto"
        ++ typeName ++ "." ++ s ++ " = " ++ f ++ "\n\x7d\n"
      (body ++ fa, warns)
    else
      match lookupMap wrapper field.Typ with
      | some typ =>
        let fa := "if " ++ shortName ++ "." ++ field.Name ++ ".Valid \x7b\n\tproto"
          ++ typeName ++ "." ++ s ++ " = &wrappers." ++ typ ++ "\x7bValue:"
          ++ shortName ++ "." ++ field.Name ++ "." ++ stringsTrim typ "Value"
          ++ "\x7d\n\x7d\n"
        (body ++ fa, warns)
      | none => (body, warns ++ [warnMsg typeName field.Name])

/-- The second loop of `modelToPB`, iterating `modelToPBStep2`. -/
def modelToPBLoop2 (wrapper : List (String × String)) (skips : List String)
    (typeName shortName : String) :
    List Field → String → List String → String × List String
  | [], body, warns => (body, warns)
  | field :: rest, body, warns =>
    modelToPBLoop2 wrapper skips typeName shortName rest
      (modelToPBStep2 wrapper skips typeName shortName field body warns).1
      (modelToPBStep2 wrapper skips typeName shortName field body warns).2

/-- Embeds `ArgType.modelToPB`. Returns the generated conversion body, the
warning records of the run (the `log.Printf` side channel made explicit),
and the configuration with the mutated short-name cache. -/
def modelToPB (a : ArgType) (option : MethodsOption) : String × List String × ArgType :=
  if !option.ModelToPB then ("", [], a)
  else
    let r := shortnameNoScope a option.Typ.Name
    let shortName := r.1
    let r1 := modelToPBLoop1 a.ToPBTypeMap a.IncompatilbePBType
      option.ModelToPBConfig.SkipFields shortName option.Typ.Fields "" []
    let body := r1.1 ++ "proto" ++ option.Typ.Name ++ " := &"
      ++ goPackageName option.ModelToPBConfig.ImportService ++ "." ++ option.Typ.Name
      ++ "\x7b\n\t" ++ stringsJoin r1.2 "\n" ++ "\n\x7d\n"
    let r2 := modelToPBLoop2 a.WrapperTypeMap option.ModelToPBConfig.SkipFields
      option.Typ.Name shortName option.Typ.Fields body []
    (r2.1 ++ "\nreturn proto" ++ option.Typ.Name ++ ", nil", r2.2, r.2)

/-! ## `PBToModel` -/

/-- The first loop of `PBToModel` (mirror of `modelToPBLoop1` in the
message-to-model direction). -/
def PBToModelStep1 (toPB : List (String × String)) (incompat : List String)
    (skips : List String) (typeName : String) (field : Field)
    (body : String) (fas : List String) : String × List String :=
  if skips.contains field.Col.ColumnName then (body, fas)
  else if !field.Col.NotNull && field.Typ != "[]byte" then (body, fas)
  else if field.Typ == "time.Time" then
    let f := forceLowerCamelIdentifier field.Col.ColumnName
    let body := body ++ f ++ ", err := ptypes.Timestamp(proto" ++ typeName
      ++ "." ++ field.Name ++ ")\n\tif err != nil \x7b\n\t\treturn nil, err\n\t\x7d\n"
    let fa := field.Name ++ ":" ++ f ++ ","
    (body, fas ++ [fa])
  else
    let fa :=
      match lookupMap toPB field.Typ with
      | some t =>
        if incompat.contains t then
          field.Name ++ ":proto" ++ typeName ++ "."
            ++ SnakeToCamelWithoutInitialisms field.Col.ColumnName ++ ","
        else
          field.Name ++ ":" ++ field.Typ ++ "(proto" ++ typeName ++ "."
            ++ SnakeToCamelWithoutInitialisms field.Col.ColumnName ++ "),"
      | none =>
        field.Name ++ ":proto" ++ typeName ++ "."
          ++ SnakeToCamelWithoutInitialisms field.Col.ColumnName ++ ","
    (body, fas ++ [fa])

/-- The first loop of `PBToModel`, iterating `PBToModelStep1`. -/
def PBToModelLoop1 (toPB : List (String × String)) (incompat : List String)
    (skips : List String) (typeName : String) :
    List Field → String → List String → String × List String
  | [], body, fas => (body, fas)
  | field :: rest, body, fas =>
    PBToModelLoop1 toPB incompat skips typeName rest
      (PBToModelStep1 toPB incompat skips typeName field body fas).1
      (PBToModelStep1 toPB incompat skips typeName field body fas).2

/-- The second loop of `PBToModel` (note: it checks the skip set before the
nullability test, the opposite order of `modelToPBLoop2`, with the same
resulting filter). An unregistered nullable type appends nothing and
records one warning. -/
def PBToModelStep2 (wrapper : List (String × String)) (skips : List String)
    (typeName shortName : String) (field : Field)
    (body : String) (warns : List String) : String × List String :=
  if skips.contains field.Col.ColumnName then (body, warns)
  else if field.Col.NotNull || field.Typ == "[]byte" then (body, warns)
  else
    let s := SnakeToCamelWithoutInitialisms field.Col.ColumnName
    if field.Typ == "mysql.NullTime" then
      let f := forceLowerCamelIdentifier field.Col.ColumnName
      let fa := "if proto" ++ typeName ++ "." ++ s ++ " != nil \x7b\n\t" ++ f
        ++ ", err := ptypes.Timestamp(proto" ++ typeName ++ "." ++ s
        ++ ")\n\tif err != nil \x7b\n\t\treturn nil, err\n\t\x7d\n\t"
        ++ shortName ++ "." ++ field.Name ++ " = mysql.NullTime\x7bTime:" ++ f
        ++ ", Valid:true\x7d\n\x7d\n"
      (body ++ fa, warns)
    else
      match lookupMap wrapper field.Typ with
      | some typ =>
        let fa := "if proto" ++ typeName ++ "." ++ s ++ " != nil \x7b\n\t"
          ++ shortName ++ "." ++ field.Name ++ " = " ++ field.Typ ++ "\x7b"
          ++ stringsTrimSuffix typ "Value" ++ ":proto" ++ typeName ++ "." ++ s
          ++ ".Value, Valid:true\x7d\n\x7d\n"
        (body ++ fa, warns)
      | none => (body, warns ++ [warnMsg typeName field.Name])

/-- The second loop of `PBToModel`, iterating `PBToModelStep2`. -/
def PBToModelLoop2 (wrapper : List (String × String)) (skips : List String)
    (typeName shortName : String) :
    List Field → String → List String → String × List String
  | [], body, warns => (body, warns)
  | field :: rest, body, warns =>
    PBToModelLoop2 wrapper skips typeName shortName rest
      (PBToModelStep2 wrapper skips typeName shortName field body warns).1
      (PBToModelStep2 wrapper skips typeName shortName field body warns).2

/-- Embeds `ArgType.PBToModel`. Returns the generated conversion body, the
warning records, and the configuration with the mutated short-name cache. -/
def PBToModel (a : ArgType) (option : MethodsOption) : String × List String × ArgType :=
  if !option.ModelToPB then ("", [], a)
  else
    let r := shortnameNoScope a option.Typ.Name
    let shortName := r.1
    let r1 := PBToModelLoop1 a.ToPBTypeMap a.IncompatilbePBType
      option.ModelToPBConfig.SkipFields option.Typ.Name option.Typ.Fields "" []
    let body := r1.1 ++ shortName ++ " := &" ++ option.Typ.Name ++ "\x7b\n\t"
      ++ stringsJoin r1.2 "\n" ++ "\n\x7d\n"
    let r2 := PBToModelLoop2 a.WrapperTypeMap option.ModelToPBConfig.SkipFields
      option.Typ.Name shortName option.Typ.Fields body []
    (r2.1 ++ "\nreturn " ++ shortName ++ ", nil", r2.2, r.2)

/-! ## `proto` -/

/-- The per-field message line of `proto`: type text (after the
`ToPBTypeMap`, `WrapperTypeMap` and timestamp substitutions), column name
and field number, preceded by the comment when present. -/
def protoFieldDef (toPB wrapper : List (String × String)) (f : Field)
    (count : Nat) : String :=
  let d := "\t" ++ f.Typ ++ " " ++ f.Col.ColumnName ++ " = " ++ toString count ++ ";"
  let d :=
    match lookupMap toPB f.Typ with
    | some v => "\t" ++ v ++ " " ++ f.Col.ColumnName ++ " = " ++ toString count ++ ";"
    | none => d
  let d :=
    match lookupMap wrapper f.Typ with
    | some v => "\tgoogle.protobuf." ++ v ++ " " ++ f.Col.ColumnName ++ " = "
        ++ toString count ++ ";"
    | none => d
  let d :=
    if f.Typ == "mysql.NullTime" || f.Typ == "time.Time" then
      "\tgoogle.protobuf.Timestamp " ++ f.Col.ColumnName ++ " = "
        ++ toString count ++ ";"
    else d
  if f.Comment ≠ "" then f.Comment ++ "\n" ++ d else d

/-- The field-definition loop of `proto`: the Go `count` starts at 1 and is
incremented once per non-skipped field. -/
def protoFieldsLoop (toPB wrapper : List (String × String)) (skips : List String) :
    List Field → Nat → List String
  | [], _ => []
  | f :: rest, count =>
    if skips.contains f.Col.ColumnName then
      protoFieldsLoop toPB wrapper skips rest count
    else
      protoFieldDef toPB wrapper f count
        :: protoFieldsLoop toPB wrapper skips rest (count + 1)

/-- The inner import-collecting loop of `proto`: one `import` line per
distinct `ImportMap` hit over non-skipped fields (`m` is the seen set). -/
def protoImportsFields (importMap : List (String × String)) (skips : List String) :
    List Field → List String → List String → List String × List String
  | [], m, imps => (m, imps)
  | f :: rest, m, imps =>
    if skips.contains f.Col.ColumnName then
      protoImportsFields importMap skips rest m imps
    else
      match lookupMap importMap f.Typ with
      | some i =>
        if m.contains i then protoImportsFields importMap skips rest m imps
        else
          protoImportsFields importMap skips rest (m ++ [i])
            (imps ++ ["import \"" ++ i ++ "\";"])
      | none => protoImportsFields importMap skips rest m imps

/-- The outer import-collecting loop of `proto`, over all config entries. -/
def protoImportsAll (importMap : List (String × String)) :
    List MethodsOption → List String → List String → List String × List String
  | [], m, imps => (m, imps)
  | p :: rest, m, imps =>
    let r := protoImportsFields importMap p.ModelToPBConfig.SkipFields
      p.Typ.Fields m imps
    protoImportsAll importMap rest r.1 r.2

/-- The message-emitting loop of `proto`: one `message` block per entry,
fields numbered from 1 over the post-skip list. -/
def protoMessages (toPB wrapper : List (String × String)) :
    List MethodsOption → String → String
  | [], body => body
  | p :: rest, body =>
    let fieldsDef := protoFieldsLoop toPB wrapper p.ModelToPBConfig.SkipFields
      p.Typ.Fields 1
    protoMessages toPB wrapper rest
      (body ++ "message " ++ p.Typ.Name ++ " \x7b\n"
        ++ stringsJoin fieldsDef "\n" ++ "\n\x7d\n")

/-- The `ProtoConfig.Less` ordering: `strings.Compare(Sub_i, Sub_j) < 0`. -/
def protoLess (x y : MethodsOption) : Bool :=
  match compare x.Sub y.Sub with
  | Ordering.lt => true
  | _ => false

/-- Stable insertion by `protoLess` (an earlier element stays before later
equal elements). -/
def protoInsert (x : MethodsOption) : List MethodsOption → List MethodsOption
  | [] => [x]
  | y :: ys => if protoLess y x then y :: protoInsert x ys else x :: y :: ys

/-- Models `sort.Stable(pc)`: stable sorts are unique, so stable insertion
sort is extensionally the sort the Go code performs. -/
def protoSort : List MethodsOption → List MethodsOption
  | [] => []
  | x :: xs => protoInsert x (protoSort xs)

/-- Embeds `ArgType.proto`: the empty config yields the empty string;
otherwise the config is stably sorted by `Sub`, the header names the first
entry's import service and lists the de-duplicated imports, and one
message block per entry follows with 1-based field numbers over the
post-skip field list. -/
def proto (a : ArgType) (pc : ProtoConfig) : String :=
  match protoSort pc with
  | [] => ""
  | p0 :: rest =>
    let pcs := p0 :: rest
    let svc := p0.ModelToPBConfig.ImportService
    let imps := (protoImportsAll a.ImportMap pcs [] []).2
    let body := "package proto." ++ ProtoName svc ++ ";\n\n" ++ stringsJoin imps "\n"
      ++ "\n\noption go_package = \"" ++ a.ServerProtoPathPrefix ++ "/service/"
      ++ goPackageName svc
      ++ "\";\noption java_multiple_files = true;\noption objc_class_prefix = \"RPC\";\n\n"
    protoMessages a.ToPBTypeMap a.WrapperTypeMap pcs body

/-- The post-skip field list of a message (the `SkipFields` filter of
`proto`, keyed by column name). -/
def keptCols (skips : List String) (fields : List Field) : List Field :=
  fields.filter (fun f => !skips.contains f.Col.ColumnName)

/-- Sample type with one non-nullable field and one nullable field of an
unregistered type (`sql.NullString` with no `WrapperTypeMap` entry). -/
def TT : XoType :=
  { Name := "Item",
    Fields :=
      [ { Name := "ID", Typ := "int64",
          Col := { ColumnName := "id", NotNull := true }, Comment := "" },
        { Name := "Note", Typ := "sql.NullString",
          Col := { ColumnName := "note", NotNull := false }, Comment := "" } ],
    HasDeletedField := false }

/-- Sample protobuf-bridge option over `TT` with no skipped columns. -/
def OptT : MethodsOption :=
  { Typ := TT, Sub := "item", ModelToPB := true,
    ModelToPBConfig := { ImportService := "my-svc", SkipFields := [] } }

/-! ## Claim C3: protobuf field numbering -/

theorem contains_true_iff (l : List String) (x : String) :
    l.contains x = true ↔ x ∈ l :=
  ⟨List.mem_of_elem_eq_true, List.elem_eq_true_of_mem⟩

theorem protoFieldsLoop_spec (toPB wrapper : List (String × String))
    (skips : List String) (fields : List Field) :
    ∀ n, protoFieldsLoop toPB wrapper skips fields n =
      ((keptCols skips fields).enumFrom n).map
        (fun p => protoFieldDef toPB wrapper p.2 p.1) := by
  induction fields with
  | nil => intro n; rfl
  | cons f rest ih =>
    intro n
    cases hf : skips.contains f.Col.ColumnName with
    | true =>
      have h1 : f.Col.ColumnName ∈ skips := List.mem_of_elem_eq_true hf
      simp [protoFieldsLoop, hf, ih, keptCols, List.filter_cons, h1]
    | false =>
      have h1 : f.Col.ColumnName ∉ skips := fun hm => by
        have h2 := (contains_true_iff skips _).mpr hm
        rw [hf] at h2
        cases h2
      simp [protoFieldsLoop, hf, ih, keptCols, List.filter_cons, h1,
        List.enumFrom_cons]

theorem protoFieldsLoop_append (toPB wrapper : List (String × String))
    (skips : List String) (xs ys : List Field) (n : Nat) :
    protoFieldsLoop toPB wrapper skips (xs ++ ys) n =
      protoFieldsLoop toPB wrapper skips xs n
        ++ protoFieldsLoop toPB wrapper skips ys (n + (keptCols skips xs).length) := by
  rw [protoFieldsLoop_spec, protoFieldsLoop_spec, protoFieldsLoop_spec]
  simp [keptCols, List.filter_append, List.enumFrom_append]

theorem contains_filter_ne (skips : List String) (c x : String) (hx : x ≠ c) :
    (skips.filter (fun y => y ≠ c)).contains x = skips.contains x := by
  cases hb : skips.contains x with
  | true =>
    have hm : x ∈ skips := List.mem_of_elem_eq_true hb
    exact List.elem_eq_true_of_mem (List.mem_filter.mpr ⟨hm, by simpa using hx⟩)
  | false =>
    cases hb2 : (skips.filter (fun y => y ≠ c)).contains x with
    | true =>
      have hm := (List.mem_filter.mp (List.mem_of_elem_eq_true hb2)).1
      have h2 := (contains_true_iff skips x).mpr hm
      rw [hb] at h2
      cases h2
    | false => rfl

theorem keptCols_filter_ne (skips : List String) (c : String) (l : List Field)
    (h : ∀ g ∈ l, g.Col.ColumnName ≠ c) :
    keptCols (skips.filter (fun y => y ≠ c)) l = keptCols skips l := by
  rw [keptCols, keptCols]
  apply List.filter_congr
  intro g hg
  rw [contains_filter_ne skips c _ (h g hg)]

theorem protoFieldsLoop_filter_ne (toPB wrapper : List (String × String))
    (skips : List String) (c : String) (l : List Field)
    (h : ∀ g ∈ l, g.Col.ColumnName ≠ c) (n : Nat) :
    protoFieldsLoop toPB wrapper (skips.filter (fun y => y ≠ c)) l n
      = protoFieldsLoop toPB wrapper skips l n := by
  rw [protoFieldsLoop_spec, protoFieldsLoop_spec, keptCols_filter_ne skips c l h]

theorem protoFieldsLoop_shift (toPB wrapper : List (String × String))
    (skips : List String) (pre post : List Field) (f : Field)
    (hskip : skips.contains f.Col.ColumnName = true)
    (hpre : ∀ g ∈ pre, g.Col.ColumnName ≠ f.Col.ColumnName)
    (hpost : ∀ g ∈ post, g.Col.ColumnName ≠ f.Col.ColumnName) :
    protoFieldsLoop toPB wrapper skips (pre ++ f :: post) 1 =
        protoFieldsLoop toPB wrapper skips pre 1
          ++ protoFieldsLoop toPB wrapper skips post
            (1 + (keptCols skips pre).length)
      ∧ protoFieldsLoop toPB wrapper (skips.filter (fun y => y ≠ f.Col.ColumnName))
          (pre ++ f :: post) 1 =
        protoFieldsLoop toPB wrapper skips pre 1
          ++ protoFieldDef toPB wrapper f (1 + (keptCols skips pre).length)
            :: protoFieldsLoop toPB wrapper skips post
              (1 + (keptCols skips pre).length + 1) := by
  have hmem : f.Col.ColumnName ∈ skips := (contains_true_iff _ _).mp hskip
  constructor
  · rw [protoFieldsLoop_append]
    congr 1
    show protoFieldsLoop _ _ skips (f :: post) _ = _
    simp [protoFieldsLoop, hskip, hmem]
  · have hf' : (skips.filter
        (fun y => y ≠ f.Col.ColumnName)).contains f.Col.ColumnName = false := by
      cases hb : (skips.filter
          (fun y => y ≠ f.Col.ColumnName)).contains f.Col.ColumnName with
      | true =>
        have := (List.mem_filter.mp (List.mem_of_elem_eq_true hb)).2
        simp at this
      | false => rfl
    rw [protoFieldsLoop_append, protoFieldsLoop_filter_ne toPB wrapper skips _ pre hpre,
      keptCols_filter_ne skips _ pre hpre]
    congr 1
    show protoFieldsLoop _ _ _ (f :: post) _ = _
    rw [show protoFieldsLoop toPB wrapper
          (skips.filter (fun y => y ≠ f.Col.ColumnName)) (f :: post)
          (1 + (keptCols skips pre).length)
        = protoFieldDef toPB wrapper f (1 + (keptCols skips pre).length)
          :: protoFieldsLoop toPB wrapper
            (skips.filter (fun y => y ≠ f.Col.ColumnName)) post
            (1 + (keptCols skips pre).length + 1) from by
      have hnm : f.Col.ColumnName ∉ skips.filter (fun y => y ≠ f.Col.ColumnName) :=
        fun hm => by
          have h2 := (contains_true_iff _ _).mpr hm
          rw [hf'] at h2
          cases h2
      simp [protoFieldsLoop, hf', hnm]]
    rw [protoFieldsLoop_filter_ne toPB wrapper skips _ post hpost]

/-- Claim C3: `proto` assigns message field numbers 1-based in declaration
order over the post-skip field list (the field loop starting at count 1
enumerates the kept fields with consecutive numbers), and removing one
column name from the skip set shifts the number of every subsequently
declared field up by one: the un-skipped field takes the next number after
the preceding kept fields, and all later fields are rendered with a start
one higher. -/
theorem claim_C3 :
    (∀ (toPB wrapper : List (String × String)) (skips : List String)
        (fields : List Field) (n : Nat),
      protoFieldsLoop toPB wrapper skips fields n =
        ((keptCols skips fields).enumFrom n).map
          (fun p => protoFieldDef toPB wrapper p.2 p.1))
  ∧ (∀ (toPB wrapper : List (String × String)) (skips : List String)
        (pre post : List Field) (f : Field),
      skips.contains f.Col.ColumnName = true →
      (∀ g ∈ pre, g.Col.ColumnName ≠ f.Col.ColumnName) →
      (∀ g ∈ post, g.Col.ColumnName ≠ f.Col.ColumnName) →
      protoFieldsLoop toPB wrapper skips (pre ++ f :: post) 1 =
          protoFieldsLoop toPB wrapper skips pre 1
            ++ protoFieldsLoop toPB wrapper skips post
              (1 + (keptCols skips pre).length)
        ∧ protoFieldsLoop toPB wrapper
            (skips.filter (fun y => y ≠ f.Col.ColumnName)) (pre ++ f :: post) 1 =
          protoFieldsLoop toPB wrapper skips pre 1
            ++ protoFieldDef toPB wrapper f (1 + (keptCols skips pre).length)
              :: protoFieldsLoop toPB wrapper skips post
                (1 + (keptCols skips pre).length + 1)) :=
  ⟨protoFieldsLoop_spec, protoFieldsLoop_shift⟩

/-- Sample field with column `cc`. -/
def F3 : Field :=
  { Name := "c", Typ := "string", Col := { ColumnName := "cc", NotNull := true },
    Comment := "" }

/-- Witness for C3's shift part at concrete inputs: skipping column `b`
between columns `a` and `cc` and then removing `b` from the skip set. -/
theorem claim_C3_witness :
    protoFieldsLoop [] [] ["b"] ([F1] ++ F2 :: [F3]) 1 =
        protoFieldsLoop [] [] ["b"] [F1] 1
          ++ protoFieldsLoop [] [] ["b"] [F3] (1 + (keptCols ["b"] [F1]).length)
      ∧ protoFieldsLoop [] [] (["b"].filter (fun y => y ≠ F2.Col.ColumnName))
          ([F1] ++ F2 :: [F3]) 1 =
        protoFieldsLoop [] [] ["b"] [F1] 1
          ++ protoFieldDef [] [] F2 (1 + (keptCols ["b"] [F1]).length)
            :: protoFieldsLoop [] [] ["b"] [F3] (1 + (keptCols ["b"] [F1]).length + 1) :=
  claim_C3.2 [] [] ["b"] [F1] [F3] F2 (by decide)
    (by intro g hg; fin_cases hg; decide)
    (by intro g hg; fin_cases hg; decide)

/-! ## Claim C4: nullable unregistered fields -/

theorem modelToPBStep2_add (W : List (String × String)) (S : List String)
    (T N : String) (f : Field) (b : String) (w : List String) :
    modelToPBStep2 W S T N f b w
      = (b ++ (modelToPBStep2 W S T N f "" []).1,
         w ++ (modelToPBStep2 W S T N f "" []).2) := by
  unfold modelToPBStep2
  split
  · simp
  · split
    · simp
    · split
      · simp [String.append_assoc]
      · split
        · simp [String.append_assoc]
        · simp

theorem modelToPBLoop2_add (W : List (String × String)) (S : List String)
    (T N : String) (fields : List Field) :
    ∀ (b : String) (w : List String),
      modelToPBLoop2 W S T N fields b w
        = (b ++ (modelToPBLoop2 W S T N fields "" []).1,
           w ++ (modelToPBLoop2 W S T N fields "" []).2) := by
  induction fields with
  | nil => intro b w; simp [modelToPBLoop2]
  | cons f rest ih =>
    intro b w
    rw [show modelToPBLoop2 W S T N (f :: rest) b w
        = modelToPBLoop2 W S T N rest
            (modelToPBStep2 W S T N f b w).1 (modelToPBStep2 W S T N f b w).2 from rfl,
      show modelToPBLoop2 W S T N (f :: rest) "" []
        = modelToPBLoop2 W S T N rest
            (modelToPBStep2 W S T N f "" []).1 (modelToPBStep2 W S T N f "" []).2 from rfl,
      modelToPBStep2_add W S T N f b w,
      ih ((modelToPBStep2 W S T N f "" []).1) ((modelToPBStep2 W S T N f "" []).2),
      show ((b ++ (modelToPBStep2 W S T N f "" []).1,
          w ++ (modelToPBStep2 W S T N f "" []).2)).1
        = b ++ (modelToPBStep2 W S T N f "" []).1 from rfl,
      show ((b ++ (modelToPBStep2 W S T N f "" []).1,
          w ++ (modelToPBStep2 W S T N f "" []).2)).2
        = w ++ (modelToPBStep2 W S T N f "" []).2 from rfl,
      ih (b ++ (modelToPBStep2 W S T N f "" []).1)
        (w ++ (modelToPBStep2 W S T N f "" []).2)]
    simp [String.append_assoc, List.append_assoc]

theorem modelToPBStep1_skip (toPB : List (String × String)) (inc : List String)
    (S : List String) (N : String) (f : Field) (b : String) (fas : List String)
    (hnn : f.Col.NotNull = false) (hbyte : f.Typ ≠ "[]byte") :
    modelToPBStep1 toPB inc S N f b fas = (b, fas) := by
  have hb : (f.Typ == "[]byte") = false := beq_eq_false_iff_ne.mpr hbyte
  unfold modelToPBStep1
  cases hs : S.contains f.Col.ColumnName with
  | true => simp [hs]
  | false => simp [hs, hnn, hb, hbyte]

theorem modelToPBStep2_warn (W : List (String × String)) (S : List String)
    (T N : String) (f : Field) (b : String) (w : List String)
    (hnn : f.Col.NotNull = false) (hbyte : f.Typ ≠ "[]byte")
    (hskip : S.contains f.Col.ColumnName = false)
    (hnt : f.Typ ≠ "mysql.NullTime") (hw : lookupMap W f.Typ = none) :
    modelToPBStep2 W S T N f b w = (b, w ++ [warnMsg T f.Name]) := by
  have hb : (f.Typ == "[]byte") = false := beq_eq_false_iff_ne.mpr hbyte
  have hn : (f.Typ == "mysql.NullTime") = false := beq_eq_false_iff_ne.mpr hnt
  have hns : f.Col.ColumnName ∉ S := fun hm => by
    have h2 := (contains_true_iff S _).mpr hm
    rw [hskip] at h2
    cases h2
  unfold modelToPBStep2
  simp [hnn, hb, hskip, hn, hw, hbyte, hnt, hns]

theorem modelToPBLoop1_erase (toPB : List (String × String)) (inc : List String)
    (S : List String) (N : String) (pre post : List Field) (f : Field)
    (hnn : f.Col.NotNull = false) (hbyte : f.Typ ≠ "[]byte") :
    ∀ (b : String) (fas : List String),
      modelToPBLoop1 toPB inc S N (pre ++ f :: post) b fas
        = modelToPBLoop1 toPB inc S N (pre ++ post) b fas := by
  induction pre with
  | nil =>
    intro b fas
    show modelToPBLoop1 toPB inc S N post
        (modelToPBStep1 toPB inc S N f b fas).1
        (modelToPBStep1 toPB inc S N f b fas).2
      = modelToPBLoop1 toPB inc S N post b fas
    rw [modelToPBStep1_skip toPB inc S N f b fas hnn hbyte]
  | cons x xs ih =>
    intro b fas
    exact ih _ _

theorem modelToPBLoop2_body_erase (W : List (String × String)) (S : List String)
    (T N : String) (pre post : List Field) (f : Field)
    (hnn : f.Col.NotNull = false) (hbyte : f.Typ ≠ "[]byte")
    (hskip : S.contains f.Col.ColumnName = false)
    (hnt : f.Typ ≠ "mysql.NullTime") (hw : lookupMap W f.Typ = none) :
    ∀ (b : String) (w : List String),
      (modelToPBLoop2 W S T N (pre ++ f :: post) b w).1
        = (modelToPBLoop2 W S T N (pre ++ post) b w).1 := by
  induction pre with
  | nil =>
    intro b w
    simp only [List.nil_append]
    rw [show modelToPBLoop2 W S T N (f :: post) b w
        = modelToPBLoop2 W S T N post
            (modelToPBStep2 W S T N f b w).1 (modelToPBStep2 W S T N f b w).2 from rfl,
      modelToPBStep2_warn W S T N f b w hnn hbyte hskip hnt hw,
      modelToPBLoop2_add, modelToPBLoop2_add,
      modelToPBLoop2_add W S T N post b w]
    simp
  | cons x xs ih =>
    intro b w
    exact ih _ _

/-- The nullable-unregistered fields of the second conversion loops:
exactly the fields for which a warning is recorded. -/
def nullWarnFields (wrapper : List (String × String)) (skips : List String)
    (fields : List Field) : List Field :=
  fields.filter (fun f => !(f.Col.NotNull || f.Typ == "[]byte")
    && !skips.contains f.Col.ColumnName && !(f.Typ == "mysql.NullTime")
    && (lookupMap wrapper f.Typ).isNone)

theorem modelToPBStep2_warns_eq (W : List (String × String)) (S : List String)
    (T N : String) (f : Field) :
    (modelToPBStep2 W S T N f "" []).2
      = if (!(f.Col.NotNull || f.Typ == "[]byte")
            && !S.contains f.Col.ColumnName && !(f.Typ == "mysql.NullTime")
            && (lookupMap W f.Typ).isNone)
        then [warnMsg T f.Name] else [] := by
  unfold modelToPBStep2
  cases h1 : (f.Col.NotNull || f.Typ == "[]byte") with
  | true => simp [h1]
  | false =>
    cases h2 : S.contains f.Col.ColumnName with
    | true => simp [h1, h2]
    | false =>
      cases h3 : f.Typ == "mysql.NullTime" with
      | true => simp [h1, h2, h3]
      | false =>
        cases h4 : lookupMap W f.Typ with
        | some t => simp [h1, h2, h3, h4]
        | none => simp [h1, h2, h3, h4]

theorem modelToPBLoop2_warns (W : List (String × String)) (S : List String)
    (T N : String) (fields : List Field) :
    (modelToPBLoop2 W S T N fields "" []).2
      = (nullWarnFields W S fields).map (fun g => warnMsg T g.Name) := by
  induction fields with
  | nil => rfl
  | cons f rest ih =>
    rw [show modelToPBLoop2 W S T N (f :: rest) "" []
        = modelToPBLoop2 W S T N rest
            (modelToPBStep2 W S T N f "" []).1 (modelToPBStep2 W S T N f "" []).2 from rfl,
      modelToPBLoop2_add]
    rw [show (((modelToPBStep2 W S T N f "" []).1
          ++ (modelToPBLoop2 W S T N rest "" []).1,
        (modelToPBStep2 W S T N f "" []).2
          ++ (modelToPBLoop2 W S T N rest "" []).2)).2
        = (modelToPBStep2 W S T N f "" []).2
          ++ (modelToPBLoop2 W S T N rest "" []).2 from rfl]
    rw [ih, modelToPBStep2_warns_eq]
    simp only [nullWarnFields, List.filter_cons]
    cases hq : (!(f.Col.NotNull || f.Typ == "[]byte")
        && !S.contains f.Col.ColumnName && !(f.Typ == "mysql.NullTime")
        && (lookupMap W f.Typ).isNone) with
    | true => simp [hq]
    | false => simp [hq]

theorem PBToModelStep2_add (W : List (String × String)) (S : List String)
    (T N : String) (f : Field) (b : String) (w : List String) :
    PBToModelStep2 W S T N f b w
      = (b ++ (PBToModelStep2 W S T N f "" []).1,
         w ++ (PBToModelStep2 W S T N f "" []).2) := by
  unfold PBToModelStep2
  split
  · simp
  · split
    · simp
    · split
      · simp [String.append_assoc]
      · split
        · simp [String.append_assoc]
        · simp

theorem PBToModelLoop2_add (W : List (String × String)) (S : List String)
    (T N : String) (fields : List Field) :
    ∀ (b : String) (w : List String),
      PBToModelLoop2 W S T N fields b w
        = (b ++ (PBToModelLoop2 W S T N fields "" []).1,
           w ++ (PBToModelLoop2 W S T N fields "" []).2) := by
  induction fields with
  | nil => intro b w; simp [PBToModelLoop2]
  | cons f rest ih =>
    intro b w
    rw [show PBToModelLoop2 W S T N (f :: rest) b w
        = PBToModelLoop2 W S T N rest
            (PBToModelStep2 W S T N f b w).1 (PBToModelStep2 W S T N f b w).2 from rfl,
      show PBToModelLoop2 W S T N (f :: rest) "" []
        = PBToModelLoop2 W S T N rest
            (PBToModelStep2 W S T N f "" []).1 (PBToModelStep2 W S T N f "" []).2 from rfl,
      PBToModelStep2_add W S T N f b w,
      ih ((PBToModelStep2 W S T N f "" []).1) ((PBToModelStep2 W S T N f "" []).2),
      show ((b ++ (PBToModelStep2 W S T N f "" []).1,
          w ++ (PBToModelStep2 W S T N f "" []).2)).1
        = b ++ (PBToModelStep2 W S T N f "" []).1 from rfl,
      show ((b ++ (PBToModelStep2 W S T N f "" []).1,
          w ++ (PBToModelStep2 W S T N f "" []).2)).2
        = w ++ (PBToModelStep2 W S T N f "" []).2 from rfl,
      ih (b ++ (PBToModelStep2 W S T N f "" []).1)
        (w ++ (PBToModelStep2 W S T N f "" []).2)]
    simp [String.append_assoc, List.append_assoc]

theorem PBToModelStep1_skip (toPB : List (String × String)) (inc : List String)
    (S : List String) (N : String) (f : Field) (b : String) (fas : List String)
    (hnn : f.Col.NotNull = false) (hbyte : f.Typ ≠ "[]byte") :
    PBToModelStep1 toPB inc S N f b fas = (b, fas) := by
  have hb : (f.Typ == "[]byte") = false := beq_eq_false_iff_ne.mpr hbyte
  unfold PBToModelStep1
  cases hs : S.contains f.Col.ColumnName with
  | true => simp [hs]
  | false => simp [hs, hnn, hb, hbyte]

theorem PBToModelStep2_warn (W : List (String × String)) (S : List String)
    (T N : String) (f : Field) (b : String) (w : List String)
    (hnn : f.Col.NotNull = false) (hbyte : f.Typ ≠ "[]byte")
    (hskip : S.contains f.Col.ColumnName = false)
    (hnt : f.Typ ≠ "mysql.NullTime") (hw : lookupMap W f.Typ = none) :
    PBToModelStep2 W S T N f b w = (b, w ++ [warnMsg T f.Name]) := by
  have hb : (f.Typ == "[]byte") = false := beq_eq_false_iff_ne.mpr hbyte
  have hn : (f.Typ == "mysql.NullTime") = false := beq_eq_false_iff_ne.mpr hnt
  have hns : f.Col.ColumnName ∉ S := fun hm => by
    have h2 := (contains_true_iff S _).mpr hm
    rw [hskip] at h2
    cases h2
  unfold PBToModelStep2
  simp [hnn, hb, hskip, hn, hw, hbyte, hnt, hns]

theorem PBToModelLoop1_erase (toPB : List (String × String)) (inc : List String)
    (S : List String) (N : String) (pre post : List Field) (f : Field)
    (hnn : f.Col.NotNull = false) (hbyte : f.Typ ≠ "[]byte") :
    ∀ (b : String) (fas : List String),
      PBToModelLoop1 toPB inc S N (pre ++ f :: post) b fas
        = PBToModelLoop1 toPB inc S N (pre ++ post) b fas := by
  induction pre with
  | nil =>
    intro b fas
    show PBToModelLoop1 toPB inc S N post
        (PBToModelStep1 toPB inc S N f b fas).1
        (PBToModelStep1 toPB inc S N f b fas).2
      = PBToModelLoop1 toPB inc S N post b fas
    rw [PBToModelStep1_skip toPB inc S N f b fas hnn hbyte]
  | cons x xs ih =>
    intro b fas
    exact ih _ _

theorem PBToModelLoop2_body_erase (W : List (String × String)) (S : List String)
    (T N : String) (pre post : List Field) (f : Field)
    (hnn : f.Col.NotNull = false) (hbyte : f.Typ ≠ "[]byte")
    (hskip : S.contains f.Col.ColumnName = false)
    (hnt : f.Typ ≠ "mysql.NullTime") (hw : lookupMap W f.Typ = none) :
    ∀ (b : String) (w : List String),
      (PBToModelLoop2 W S T N (pre ++ f :: post) b w).1
        = (PBToModelLoop2 W S T N (pre ++ post) b w).1 := by
  induction pre with
  | nil =>
    intro b w
    simp only [List.nil_append]
    rw [show PBToModelLoop2 W S T N (f :: post) b w
        = PBToModelLoop2 W S T N post
            (PBToModelStep2 W S T N f b w).1 (PBToModelStep2 W S T N f b w).2 from rfl,
      PBToModelStep2_warn W S T N f b w hnn hbyte hskip hnt hw,
      PBToModelLoop2_add, PBToModelLoop2_add,
      PBToModelLoop2_add W S T N post b w]
    simp
  | cons x xs ih =>
    intro b w
    exact ih _ _

theorem PBToModelStep2_warns_eq (W : List (String × String)) (S : List String)
    (T N : String) (f : Field) :
    (PBToModelStep2 W S T N f "" []).2
      = if (!(f.Col.NotNull || f.Typ == "[]byte")
            && !S.contains f.Col.ColumnName && !(f.Typ == "mysql.NullTime")
            && (lookupMap W f.Typ).isNone)
        then [warnMsg T f.Name] else [] := by
  unfold PBToModelStep2
  cases h2 : S.contains f.Col.ColumnName with
  | true => simp [h2]
  | false =>
    cases h1 : (f.Col.NotNull || f.Typ == "[]byte") with
    | true => simp [h1, h2]
    | false =>
      cases h3 : f.Typ == "mysql.NullTime" with
      | true => simp [h1, h2, h3]
      | false =>
        cases h4 : lookupMap W f.Typ with
        | some t => simp [h1, h2, h3, h4]
        | none => simp [h1, h2, h3, h4]

theorem PBToModelLoop2_warns (W : List (String × String)) (S : List String)
    (T N : String) (fields : List Field) :
    (PBToModelLoop2 W S T N fields "" []).2
      = (nullWarnFields W S fields).map (fun g => warnMsg T g.Name) := by
  induction fields with
  | nil => rfl
  | cons f rest ih =>
    rw [show PBToModelLoop2 W S T N (f :: rest) "" []
        = PBToModelLoop2 W S T N rest
            (PBToModelStep2 W S T N f "" []).1 (PBToModelStep2 W S T N f "" []).2 from rfl,
      PBToModelLoop2_add]
    rw [show (((PBToModelStep2 W S T N f "" []).1
          ++ (PBToModelLoop2 W S T N rest "" []).1,
        (PBToModelStep2 W S T N f "" []).2
          ++ (PBToModelLoop2 W S T N rest "" []).2)).2
        = (PBToModelStep2 W S T N f "" []).2
          ++ (PBToModelLoop2 W S T N rest "" []).2 from rfl]
    rw [ih, PBToModelStep2_warns_eq]
    simp only [nullWarnFields, List.filter_cons]
    cases hq : (!(f.Col.NotNull || f.Typ == "[]byte")
        && !S.contains f.Col.ColumnName && !(f.Typ == "mysql.NullTime")
        && (lookupMap W f.Typ).isNone) with
    | true => simp [hq]
    | false => simp [hq]

theorem warnMsg_inj (T n1 n2 : String) (h : warnMsg T n1 = warnMsg T n2) :
    n1 = n2 := by
  unfold warnMsg at h
  have h2 := congrArg String.data h
  simp only [String.data_append] at h2
  rw [List.append_assoc, List.append_assoc, List.append_assoc, List.append_assoc,
    List.append_assoc, List.append_assoc] at h2
  have h3 := List.append_cancel_left h2
  have h4 := List.append_cancel_left h3
  have h5 := List.append_cancel_left h4
  have h6 := List.append_cancel_right h5
  cases n1 with
  | mk d1 =>
    cases n2 with
    | mk d2 => exact congrArg String.mk h6

theorem count_warnMsg_zero (W : List (String × String)) (S : List String)
    (T : String) (l : List Field) (fname : String)
    (h : ∀ g ∈ l, g.Name ≠ fname) :
    ((nullWarnFields W S l).map (fun g => warnMsg T g.Name)).count
      (warnMsg T fname) = 0 := by
  rw [List.count_eq_zero]
  intro hm
  rcases List.mem_map.mp hm with ⟨g, hg, heq⟩
  exact h g (List.mem_filter.mp hg).1 (warnMsg_inj T _ _ heq)

/-- Statement helper: the `MethodsOption` for type `N` with the given
field list, with the protobuf bridge enabled. -/
def mkOpt (N sub svc : String) (hd : Bool) (skips : List String)
    (flds : List Field) : MethodsOption :=
  { Typ := { Name := N, Fields := flds, HasDeletedField := hd },
    Sub := sub, ModelToPB := true,
    ModelToPBConfig := { ImportService := svc, SkipFields := skips } }

theorem modelToPB_warns (a : ArgType) (opt : MethodsOption)
    (h : opt.ModelToPB = true) :
    (modelToPB a opt).2.1
      = (nullWarnFields a.WrapperTypeMap opt.ModelToPBConfig.SkipFields
          opt.Typ.Fields).map (fun g => warnMsg opt.Typ.Name g.Name) := by
  simp only [modelToPB, h, Bool.not_true]
  rw [modelToPBLoop2_add, modelToPBLoop2_warns]
  simp

theorem PBToModel_warns (a : ArgType) (opt : MethodsOption)
    (h : opt.ModelToPB = true) :
    (PBToModel a opt).2.1
      = (nullWarnFields a.WrapperTypeMap opt.ModelToPBConfig.SkipFields
          opt.Typ.Fields).map (fun g => warnMsg opt.Typ.Name g.Name) := by
  simp only [PBToModel, h, Bool.not_true]
  rw [PBToModelLoop2_add, PBToModelLoop2_warns]
  simp

/-- Counterexample to C4 as stated: both `modelToPB` and `PBToModel` record
the warning for a nullable field of an unregistered type, so one
generation run emitting both conversion bodies over type `Item` with
nullable unregistered field `Note` produces two warning records for that
field, not exactly one. -/
theorem claim_C4_counterexample :
    ((modelToPB A0 OptT).2.1
        ++ (PBToModel (modelToPB A0 OptT).2.2 OptT).2.1).count
      (warnMsg "Item" "Note") = 2 ∧ (2 : Nat) ≠ 1 :=
  ⟨rfl, by decide⟩

/-- Claim C4 (amended): a nullable, non-skipped field whose type is
neither `[]byte` nor `mysql.NullTime` and has no `WrapperTypeMap` entry is
still declared in the proto message (with the next field number); both
conversion bodies omit any assignment for it — each generated body equals
the body generated with the field absent; and exactly one warning record
is produced for the field per conversion function (so two per generation
run: one from `modelToPB`, one from `PBToModel`). -/
theorem claim_C4 (a : ArgType) (pre post : List Field) (f : Field)
    (N sub svc : String) (hd : Bool) (skips : List String)
    (hnn : f.Col.NotNull = false) (hbyte : f.Typ ≠ "[]byte")
    (hnt : f.Typ ≠ "mysql.NullTime")
    (hw : lookupMap a.WrapperTypeMap f.Typ = none)
    (hskip : skips.contains f.Col.ColumnName = false)
    (huniq : ∀ g ∈ pre ++ post, g.Name ≠ f.Name) :
    protoFieldsLoop a.ToPBTypeMap a.WrapperTypeMap skips (pre ++ f :: post) 1 =
        protoFieldsLoop a.ToPBTypeMap a.WrapperTypeMap skips pre 1
          ++ protoFieldDef a.ToPBTypeMap a.WrapperTypeMap f
              (1 + (keptCols skips pre).length)
            :: protoFieldsLoop a.ToPBTypeMap a.WrapperTypeMap skips post
              (1 + (keptCols skips pre).length + 1)
  ∧ (modelToPB a (mkOpt N sub svc hd skips (pre ++ f :: post))).1
      = (modelToPB a (mkOpt N sub svc hd skips (pre ++ post))).1
  ∧ (PBToModel a (mkOpt N sub svc hd skips (pre ++ f :: post))).1
      = (PBToModel a (mkOpt N sub svc hd skips (pre ++ post))).1
  ∧ ((modelToPB a (mkOpt N sub svc hd skips (pre ++ f :: post))).2.1).count
      (warnMsg N f.Name) = 1
  ∧ ((PBToModel a (mkOpt N sub svc hd skips (pre ++ f :: post))).2.1).count
      (warnMsg N f.Name) = 1 := by
  have hb : (f.Typ == "[]byte") = false := beq_eq_false_iff_ne.mpr hbyte
  have hn : (f.Typ == "mysql.NullTime") = false := beq_eq_false_iff_ne.mpr hnt
  have hnm : f.Col.ColumnName ∉ skips := fun hm => by
    have h2 := (contains_true_iff skips _).mpr hm
    rw [hskip] at h2
    cases h2
  have hqf : (!(f.Col.NotNull || f.Typ == "[]byte")
      && !skips.contains f.Col.ColumnName && !(f.Typ == "mysql.NullTime")
      && (lookupMap a.WrapperTypeMap f.Typ).isNone) = true := by
    simp [hnn, hb, hskip, hn, hw, hnm]
  have hsplit : nullWarnFields a.WrapperTypeMap skips (pre ++ f :: post)
      = nullWarnFields a.WrapperTypeMap skips pre
        ++ f :: nullWarnFields a.WrapperTypeMap skips post := by
    simp only [nullWarnFields, List.filter_append, List.filter_cons, hqf, if_true]
  refine ⟨?d1, ?d2, ?d3, ?d4, ?d5⟩
  case d1 =>
    rw [protoFieldsLoop_append]
    congr 1
    show protoFieldsLoop _ _ skips (f :: post) _ = _
    simp [protoFieldsLoop, hskip, hnm]
  case d2 =>
    simp only [modelToPB, mkOpt, Bool.not_true, Bool.false_eq_true, if_false]
    rw [modelToPBLoop1_erase _ _ _ _ pre post f hnn hbyte,
      modelToPBLoop2_body_erase _ _ _ _ pre post f hnn hbyte hskip hnt hw]
  case d3 =>
    simp only [PBToModel, mkOpt, Bool.not_true, Bool.false_eq_true, if_false]
    rw [PBToModelLoop1_erase _ _ _ _ pre post f hnn hbyte,
      PBToModelLoop2_body_erase _ _ _ _ pre post f hnn hbyte hskip hnt hw]
  case d4 =>
    rw [modelToPB_warns a _ rfl]
    show ((nullWarnFields a.WrapperTypeMap skips (pre ++ f :: post)).map
      (fun g => warnMsg N g.Name)).count (warnMsg N f.Name) = 1
    rw [hsplit, List.map_append, List.map_cons, List.count_append,
      List.count_cons,
      count_warnMsg_zero _ _ _ pre _ (fun g hg => huniq g (List.mem_append_left _ hg)),
      count_warnMsg_zero _ _ _ post _ (fun g hg => huniq g (List.mem_append_right _ hg))]
    simp
  case d5 =>
    rw [PBToModel_warns a _ rfl]
    show ((nullWarnFields a.WrapperTypeMap skips (pre ++ f :: post)).map
      (fun g => warnMsg N g.Name)).count (warnMsg N f.Name) = 1
    rw [hsplit, List.map_append, List.map_cons, List.count_append,
      List.count_cons,
      count_warnMsg_zero _ _ _ pre _ (fun g hg => huniq g (List.mem_append_left _ hg)),
      count_warnMsg_zero _ _ _ post _ (fun g hg => huniq g (List.mem_append_right _ hg))]
    simp

/-- The nullable unregistered field of `TT` (`sql.NullString`, no wrapper
mapping). -/
def FNote : Field :=
  { Name := "Note", Typ := "sql.NullString",
    Col := { ColumnName := "note", NotNull := false }, Comment := "" }

/-- Witness for the amended C4 at concrete inputs. -/
theorem claim_C4_witness :
    protoFieldsLoop A0.ToPBTypeMap A0.WrapperTypeMap [] ([F1] ++ FNote :: []) 1 =
        protoFieldsLoop A0.ToPBTypeMap A0.WrapperTypeMap [] [F1] 1
          ++ protoFieldDef A0.ToPBTypeMap A0.WrapperTypeMap FNote
              (1 + (keptCols [] [F1]).length)
            :: protoFieldsLoop A0.ToPBTypeMap A0.WrapperTypeMap [] []
              (1 + (keptCols [] [F1]).length + 1)
  ∧ (modelToPB A0 (mkOpt "Item" "s" "svc" false [] ([F1] ++ FNote :: []))).1
      = (modelToPB A0 (mkOpt "Item" "s" "svc" false [] ([F1] ++ []))).1
  ∧ (PBToModel A0 (mkOpt "Item" "s" "svc" false [] ([F1] ++ FNote :: []))).1
      = (PBToModel A0 (mkOpt "Item" "s" "svc" false [] ([F1] ++ []))).1
  ∧ ((modelToPB A0 (mkOpt "Item" "s" "svc" false [] ([F1] ++ FNote :: []))).2.1).count
      (warnMsg "Item" "Note") = 1
  ∧ ((PBToModel A0 (mkOpt "Item" "s" "svc" false [] ([F1] ++ FNote :: []))).2.1).count
      (warnMsg "Item" "Note") = 1 :=
  claim_C4 A0 [F1] [] FNote "Item" "s" "svc" false [] rfl (by decide) (by decide)
    rfl rfl (by intro g hg; fin_cases hg; decide)

/-! ## Claim C7: deterministic, idempotent generation -/

theorem shortnameCalc_stable (a : ArgType) (typ : String) :
    shortnameCalc (shortnameCalc a typ).2 typ = shortnameCalc a typ := by
  cases h : lookupMap a.ShortNameTypeMap typ with
  | some v => simp [shortnameCalc, h]
  | none =>
    simp only [shortnameCalc, h]
    simp [lookupMap, List.find?_cons]

theorem shortnameCalc_update (a : ArgType) (typ : String) :
    (shortnameCalc a typ).2
      = { a with ShortNameTypeMap := (shortnameCalc a typ).2.ShortNameTypeMap } := by
  cases h : lookupMap a.ShortNameTypeMap typ with
  | some v => simp [shortnameCalc, h]
  | none => simp [shortnameCalc, h]

theorem shortnameNoScope_stable (a : ArgType) (typ : String) :
    shortnameNoScope (shortnameNoScope a typ).2 typ = shortnameNoScope a typ := by
  show shortnameNoScope (shortnameCalc a typ).2 typ = shortnameNoScope a typ
  simp only [shortnameNoScope]
  rw [shortnameCalc_stable a typ, shortnameCalc_update a typ]

/-- Claim C7: generation is deterministic and idempotent across repeated
runs. With the short-name cache threaded through one full run
(`modelToPB` then `PBToModel`), a second run of `proto`, `modelToPB` and
`PBToModel` on the same unchanged model and configuration produces exactly
the same message-definition and conversion-body text. -/
theorem claim_C7 (a : ArgType) (opt : MethodsOption) (pc : ProtoConfig) :
    proto (PBToModel (modelToPB a opt).2.2 opt).2.2 pc = proto a pc
  ∧ (modelToPB (PBToModel (modelToPB a opt).2.2 opt).2.2 opt).1
      = (modelToPB a opt).1
  ∧ (PBToModel (modelToPB (PBToModel (modelToPB a opt).2.2 opt).2.2 opt).2.2 opt).1
      = (PBToModel (modelToPB a opt).2.2 opt).1 := by
  cases hm : opt.ModelToPB with
  | false => simp [modelToPB, PBToModel, hm]
  | true =>
    have hA1 : (modelToPB a opt).2.2 = (shortnameNoScope a opt.Typ.Name).2 := by
      simp [modelToPB, hm]
    have hstab := shortnameNoScope_stable a opt.Typ.Name
    have hB : (shortnameNoScope a opt.Typ.Name).2
        = { a with ShortNameTypeMap :=
              (shortnameCalc a opt.Typ.Name).2.ShortNameTypeMap } :=
      shortnameCalc_update a opt.Typ.Name
    have hA2 : (PBToModel (modelToPB a opt).2.2 opt).2.2 = (modelToPB a opt).2.2 := by
      rw [hA1]
      simp only [PBToModel, hm, Bool.not_true, Bool.false_eq_true, if_false]
      rw [hstab]
    refine ⟨?g1, ?g2, ?g3⟩
    case g1 =>
      rw [hA2, hA1, hB]
      rfl
    case g2 =>
      rw [hA2, hA1]
      simp only [modelToPB, hm, Bool.not_true, Bool.false_eq_true, if_false]
      rw [hstab, hB]
    case g3 =>
      rw [hA2, hA1]
      have hA3 : (modelToPB (shortnameNoScope a opt.Typ.Name).2 opt).2.2
          = (shortnameNoScope a opt.Typ.Name).2 := by
        simp only [modelToPB, hm, Bool.not_true, Bool.false_eq_true, if_false]
        rw [hstab]
      rw [hA3]

end Xo
